import Mathlib

/-!
Verification of the analytics core of `factory_monitor.py` (wisefab1/factory_monitor).

The Python source is shallowly embedded below:
* timestamps are modelled as `Int` seconds (the CSV timestamps have second
  granularity and a fixed format, so lexicographic order of the `Date` strings
  coincides with chronological order of these integers);
* Python floats are modelled as exact rationals `ℚ`; `round(x, 2)` is modelled by
  `round2` (rounding `100*x` to the nearest integer; the inputs relevant to the
  claims are never half-integer ties, so the float tie-breaking mode is immaterial);
* Python string operations on program names are modelled on `List Char`
  (`String.toList`), which mirrors Python's per-character semantics for the
  ASCII data involved;
* fallible code (date parsing with `datetime.strptime`, reading a possibly
  corrupt alert-history file) is modelled with `Option`.

Definitions keep the Python names wherever Lean allows it.  `end` being a Lean
keyword, the `end` key of cycle/downtime dicts is modelled by the field `stop`.
-/

attribute [local semireducible] Rat.mul Rat.add Rat.inv Rat.sub

namespace FM

/-- Python's `round(x, 2)` on the exact rational value `x`: round `100*x` to the
nearest integer and divide by 100.  (Ties are rounded half-up here; no claim
depends on a tie.) -/
def round2 (x : ℚ) : ℚ := ((round (x * 100) : ℤ) : ℚ) / 100

/-- Sorting a list of rationals, modelling Python's `sorted`.  Any two sorted
lists with the same multiset of rational values are equal, so insertion sort
agrees extensionally with Python's timsort. -/
def sortQ (l : List ℚ) : List ℚ := l.insertionSort (· ≤ ·)

/-- The median computation shared by `get_actual_cycle_time_from_mr` and
`calculate_real_cycle_time` in the source: on a sorted list `s` of length `n`,
`(s[n//2 - 1] + s[n//2]) / 2` if `n` is even, else `s[n//2]`.  (The source's
special case `n == 1` returns `s[0]`, which the odd branch also yields.)
Only ever applied to nonempty lists. -/
def median_sorted (l : List ℚ) : ℚ :=
  let n := l.length
  if n % 2 = 0 then (l.getD (n / 2 - 1) 0 + l.getD (n / 2) 0) / 2
  else l.getD (n / 2) 0

/-- Python's `min(l, key=key)` for a nonempty list `c :: cs`: the first element
attaining the minimal key. -/
def pyMin {α : Type} [Inhabited α] (key : α → ℚ) : List α → α
  | [] => default
  | c :: cs => cs.foldl (fun best y => if key y < key best then y else best) c

/-! ### Program Identity Normalizer (`normalize_program_name`, `get_operation_number`) -/

/-- Python `name.rsplit('.', 1)[0]` guarded by `'.' in name`: drop the last
`.`-separated extension. -/
def dropLastExtension (cs : List Char) : List Char :=
  if cs.contains '.' then ((cs.reverse.dropWhile (fun c => c ≠ '.')).drop 1).reverse
  else cs

/-- The operation-suffix variants tried by `normalize_program_name`, in the
exact order of the Python nested loops (`for op in [...]: for variant in
[f'-{op}', f'_{op}', op]`), flattened: the first suffix match wins, which is
exactly what the nested loops with `break` compute. -/
def op_suffix_variants : List (List Char) :=
  ["op5", "p5", "op4", "p4", "op3", "p3", "op2", "p2", "op1", "p1"].foldr
    (fun op acc => ('-' :: op.toList) :: ('_' :: op.toList) :: op.toList :: acc) []

/-- Python `name[:len(name) - n]`. -/
def takeAllButLast (n : Nat) (cs : List Char) : List Char := cs.take (cs.length - n)

/-- Step 2 of `normalize_program_name`: strip a trailing operation marker.
The `op`/`p` suffixes are matched against the lower-cased name; failing that,
a bare trailing `-N`/`_N` for `N ∈ {5,4,3,2,1}` is stripped. -/
def strip_operation (cs : List Char) : List Char :=
  let lower := cs.map Char.toLower
  match op_suffix_variants.find? (fun v => v.isSuffixOf lower) with
  | some v => takeAllButLast v.length cs
  | none =>
    match ['5', '4', '3', '2', '1'].find?
        (fun d => ['-', d].isSuffixOf cs || ['_', d].isSuffixOf cs) with
    | some _ => takeAllButLast 2 cs
    | none => cs

/-- Step 3 of `normalize_program_name`: drop one trailing `L`/`R` (either case). -/
def strip_side_letter (cs : List Char) : List Char :=
  match cs.getLast? with
  | some c => if c.toUpper = 'L' ∨ c.toUpper = 'R' then takeAllButLast 1 cs else cs
  | none => cs

/-- Worker for `replaceAll`, structurally recursive on a fuel argument so that
it reduces inside the kernel; the fuel is always at least the list length, so
the `0, l` branch is never reached on the actual calls. -/
def replaceAllAux (p : Char) (ps rep : List Char) : Nat → List Char → List Char
  | _, [] => []
  | 0, l => l
  | fuel + 1, c :: rest =>
    if (p :: ps).isPrefixOf (c :: rest) then
      rep ++ replaceAllAux p ps rep fuel (rest.drop ps.length)
    else c :: replaceAllAux p ps rep fuel rest

/-- Python `s.replace(pat, rep)` for the nonempty pattern `p :: ps`:
left-to-right, non-overlapping replacement of every occurrence. -/
def replaceAll (p : Char) (ps rep : List Char) (l : List Char) : List Char :=
  replaceAllAux p ps rep l.length l

/-- Python `normalize_program_name` (source lines 70–124): drop the extension,
strip the operation suffix, strip a trailing `L`/`R`, upper-case, remove
spaces/hyphens/underscores (removal of a single character is character
filtering), and replace the substring `101` by `100`. -/
def normalize_program_name (name : String) : String :=
  if name = "" then ""
  else
    let cs1 := dropLastExtension name.toList
    let cs2 := strip_operation cs1
    let cs3 := strip_side_letter cs2
    let cs4 := cs3.map Char.toUpper
    let cs5 := (cs4.filter (fun c => c ≠ ' ')).filter (fun c => c ≠ '-')
    let cs6 := cs5.filter (fun c => c ≠ '_')
    (replaceAll '1' ['0', '1'] ['1', '0', '0'] cs6).asString

/-- Python `get_operation_number` (source lines 141–178): the trailing operation
marker of the extension-stripped, lower-cased name, defaulting to 1. -/
def get_operation_number (program_name : String) : Nat :=
  if program_name = "" ∨ program_name = "—" then 1
  else
    let bl := (dropLastExtension program_name.toList).map Char.toLower
    let ends := fun (s : String) => s.toList.isSuffixOf bl
    if ends "op5" || ends "p5" || ends "-p5" || ends "-5" || ends "_5" then 5
    else if ends "op4" || ends "p4" || ends "-p4" || ends "-4" || ends "_4" then 4
    else if ends "op3" || ends "p3" || ends "-p3" || ends "-3" || ends "_3" then 3
    else if ends "op2" || ends "p2" || ends "-p2" || ends "-2" || ends "_2" then 2
    else if ends "op1" || ends "p1" || ends "-p1" || ends "-1" || ends "_1" then 1
    else 1

/-- Python `parse_program_name`: `(normalized base, operation number)`. -/
def parse_program_name (program_name : String) : String × Nat :=
  (normalize_program_name program_name, get_operation_number program_name)

/-! ### Samples, Cycles, Downtimes (Segmentation Engine) -/

/-- One CSV sample row for one machine, after the per-machine grouping of
`analyze_cycles` / `analyze_downtime` and after parsing the `Date` column.
`run = some "1"` / `some "0"` are the well-formed run states; `none` models a
row whose `RunState` value is missing (`csv.DictReader` yields `None`, which
compares unequal to both `"1"` and `"0"`).  The remaining fields are the raw
flag columns consumed by the downtime reason classifier. -/
structure Row where
  ts : Int
  run : Option String
  prog : String
  alarmState : String := "0"
  alarmMessage : String := ""
  alarmNo : String := ""
  powerOn : String := "1"
  setUp : String := "0"
  maintenance : String := "0"
  noOperator : String := "0"
  wait : String := "0"
  feedHoldState : String := "0"
  programStopState : String := "0"
deriving DecidableEq

/-- A cycle dict as produced by `analyze_cycles` / `split_schedule_cycles`.
Python's `end` key is the field `stop` (`end` is a Lean keyword).  Keys that a
given dict does not carry (`ongoing`, `split_from_schedule`) are read in the
source with `.get(...)`, defaulting to falsy, which the `Bool` defaults model. -/
structure Cycle where
  start : Option Int
  stop : Option Int
  program : String
  duration : ℚ
  ongoing : Bool := false
  split_from_schedule : Bool := false
deriving DecidableEq

/-- A downtime dict as produced by `analyze_downtime`. -/
structure Downtime where
  start : Option Int
  stop : Option Int
  duration : ℚ
  reason : String
  ongoing : Bool := false
deriving DecidableEq

/-- The loop state of `analyze_cycles` for one machine:
`cycles, prev_run, prev_prog_parsed, cycle_start, cycle_prog`. -/
structure CycState where
  cycles : List Cycle
  prev_run : Option String
  prev_prog_parsed : Option (String × Nat)
  cycle_start : Option Int
  cycle_prog : String

/-- A closed cycle appended by `analyze_cycles`:
`{"start": s, "end": e, "program": prog, "duration": round((e-s)/60, 2)}`. -/
def closedCycle (s e : Int) (prog : String) : Cycle :=
  { start := some s, stop := some e, program := prog,
    duration := round2 (((e - s : Int) : ℚ) / 60) }

/-- One iteration of the `analyze_cycles` loop body (source lines 917–942).
The Python truthiness test `and cycle_start` is `cycle_start.isSome`; since the
branch only runs under that test, reading the start with `getD 0` never uses
the default. -/
def cycStep (st : CycState) (r : Row) : CycState :=
  let ts := r.ts
  let run := r.run
  let prog := r.prog
  let prog_parsed := parse_program_name prog
  let st1 :=
    if run = some "1" then
      if st.prev_run = none ∨ st.prev_run = some "0" then
        { st with cycle_start := some ts, cycle_prog := prog }
      else if st.prev_run = some "1" ∧ some prog_parsed ≠ st.prev_prog_parsed
          ∧ st.cycle_start.isSome then
        { st with cycles := st.cycles ++ [closedCycle (st.cycle_start.getD 0) ts st.cycle_prog],
                  cycle_start := some ts, cycle_prog := prog }
      else st
    else if st.prev_run = some "1" ∧ run = some "0" ∧ st.cycle_start.isSome then
      { st with cycles := st.cycles ++ [closedCycle (st.cycle_start.getD 0) ts st.cycle_prog],
                cycle_start := none }
    else st
  { st1 with prev_run := run, prev_prog_parsed := some prog_parsed }

/-- `analyze_cycles` (source lines 908–950) for the sorted sample series of one
machine.  (The source groups the rows by `MachineName` and sorts each group by
the fixed-format `Date` string — i.e. chronologically — before this loop; the
machine loop maps this function over the groups.)  The empty case cannot arise
in the source (groups are nonempty) and is defined as `[]`. -/
def analyze_cycles (rows : List Row) : List Cycle :=
  match rows with
  | [] => []
  | r0 :: _ =>
    let st := rows.foldl cycStep ⟨[], none, none, none, ""⟩
    match st.cycle_start with
    | some s =>
      st.cycles ++ [{ start := some s, stop := none, program := st.cycle_prog,
                      duration := round2 ((((rows.getLastD r0).ts - s : Int) : ℚ) / 60),
                      ongoing := true }]
    | none => st.cycles

/-- The downtime reason classifier of `analyze_downtime` (source lines
1081–1089), including the Python `or`-chain on the alarm message fields. -/
def downtime_reason (r : Row) : String :=
  if r.alarmState = "1" then
    "Alarm: " ++ (if r.alarmMessage ≠ "" then r.alarmMessage
                  else if r.alarmNo ≠ "" then r.alarmNo else "—")
  else if r.powerOn = "0" then "Power off"
  else if r.setUp = "1" then "Setup"
  else if r.maintenance = "1" then "Maintenance"
  else if r.noOperator = "1" then "No operator"
  else if r.wait = "1" then "Waiting"
  else if r.feedHoldState = "1" then "Feed Hold"
  else if r.programStopState = "1" then "Program Stop"
  else "Idle"

/-- The loop state of `analyze_downtime` for one machine. -/
structure DownState where
  downtimes : List Downtime
  prev_run : Option String
  dt_start : Option Int
  dt_reason : String

/-- One iteration of the `analyze_downtime` loop body (source lines 1078–1100).
A closed downtime is appended only when its rounded duration is positive;
`dt_start` is cleared either way. -/
def downStep (st : DownState) (r : Row) : DownState :=
  let ts := r.ts
  let run := r.run
  let reason := if run = some "0" then downtime_reason r else ""
  let st1 :=
    if (st.prev_run = none ∨ st.prev_run = some "1") ∧ run = some "0" then
      { st with dt_start := some ts, dt_reason := reason }
    else if st.prev_run = some "0" ∧ run = some "1" ∧ st.dt_start.isSome then
      let s := st.dt_start.getD 0
      let dur := round2 (((ts - s : Int) : ℚ) / 60)
      let closed : Downtime :=
        { start := some s, stop := some ts, duration := dur, reason := st.dt_reason }
      if dur > 0 then
        { st with downtimes := st.downtimes ++ [closed], dt_start := none }
      else { st with dt_start := none }
    else st
  { st1 with prev_run := run }

/-- The per-machine result of `analyze_downtime`: the downtime events plus the
utilization counters computed over the night-filtered rows. -/
structure DowntimeSummary where
  downtimes : List Downtime
  total_run : Nat
  total_down : Nat
  total_min : Nat
deriving DecidableEq

/-- The fractional hour `ts.hour + ts.minute / 60.0` of a timestamp (seconds
are dropped, exactly as the Python attribute access does). -/
def hourFrac (ts : Int) : ℚ :=
  let day := ts % 86400
  ((day - day % 60 : Int) : ℚ) / 3600

/-- The night filter of `analyze_downtime` (source lines 1070–1076): samples
whose fractional hour lies in `[1.0, 6.5)` are excluded from the utilization
counters. -/
def night_filtered (rows : List Row) : List Row :=
  rows.filter (fun r => ¬ (1 ≤ hourFrac r.ts ∧ hourFrac r.ts < (13 : ℚ) / 2))

/-- `analyze_downtime` (source lines 1059–1115) for the sorted sample series of
one machine (grouping/sorting as for `analyze_cycles`).  An unclosed downtime
is emitted as ongoing only if its rounded duration is positive. -/
def analyze_downtime (rows : List Row) : DowntimeSummary :=
  match rows with
  | [] => { downtimes := [], total_run := 0, total_down := 0, total_min := 0 }
  | r0 :: _ =>
    let st := rows.foldl downStep ⟨[], none, none, ""⟩
    let downtimes :=
      match st.dt_start with
      | some s =>
        let last_ts := (rows.getLastD r0).ts
        let dur := round2 (((last_ts - s : Int) : ℚ) / 60)
        if dur > 0 then
          st.downtimes ++ [{ start := some s, stop := none, duration := dur,
                             reason := st.dt_reason, ongoing := true }]
        else st.downtimes
      | none => st.downtimes
    let filtered_rows := night_filtered rows
    { downtimes := downtimes,
      total_run := (filtered_rows.filter (fun r => r.run = some "1")).length,
      total_down := (filtered_rows.filter (fun r => r.run = some "0")).length,
      total_min := filtered_rows.length }

/-- The time interval covered by a cycle/downtime with the given `start` and
`stop` fields: an ongoing event (no `stop`) extends to the last sample's
timestamp.  Events produced by segmentation always carry a `start`. -/
def eventSpan (lastTs : Int) (start stop : Option Int) : Int × Int :=
  (start.getD lastTs, stop.getD lastTs)

/-- All intervals produced by segmentation for one machine's sample series:
the spans of the cycles of `analyze_cycles` followed by the spans of the
downtimes of `analyze_downtime`. -/
def machine_intervals (rows : List Row) : List (Int × Int) :=
  match rows with
  | [] => []
  | r0 :: _ =>
    let lastTs := (rows.getLastD r0).ts
    (analyze_cycles rows).map (fun c => eventSpan lastTs c.start c.stop)
      ++ (analyze_downtime rows).downtimes.map (fun d => eventSpan lastTs d.start d.stop)

/-- A sample row is well formed when its `RunState` field is present and is one
of the two legal values `"1"`/`"0"`. -/
def WFRow (r : Row) : Prop := r.run = some "1" ∨ r.run = some "0"

instance (r : Row) : Decidable (WFRow r) :=
  inferInstanceAs (Decidable (r.run = some "1" ∨ r.run = some "0"))

/-- `L` consecutively tiles the interval from `a` to `c`: it is the list of
intervals `[a, b₁], [b₁, b₂], …` ending exactly at `c`. -/
inductive TilesFrom : Int → List (Int × Int) → Int → Prop
  | nil (a : Int) : TilesFrom a [] a
  | cons {a b c : Int} {L : List (Int × Int)} :
      a ≤ b → TilesFrom b L c → TilesFrom a ((a, b) :: L) c

/-- The span of a closed cycle (both endpoints present; the defaults are never
used on closed events). -/
def cycSpan (c : Cycle) : Int × Int := (c.start.getD 0, c.stop.getD 0)

/-- The span of a closed downtime. -/
def downSpan (d : Downtime) : Int × Int := (d.start.getD 0, d.stop.getD 0)

/-- The joint loop invariant of `analyze_cycles` and `analyze_downtime` after
processing the samples from `first` up to `cur` (the last processed
timestamp): the two state machines have seen the same run states; all closed
events carry both endpoints; exactly one of the two machines has an open event
pending, started at some `s ≤ cur`; and the closed cycle and downtime spans
together tile the interval from `first` to `s` (in some order). -/
def Inv (first cur : Int) (cs : CycState) (ds : DownState) : Prop :=
  ds.prev_run = cs.prev_run
  ∧ (∀ c ∈ cs.cycles, c.start.isSome ∧ c.stop.isSome)
  ∧ (∀ d ∈ ds.downtimes, d.start.isSome ∧ d.stop.isSome)
  ∧ ∃ s L,
      first ≤ s ∧ s ≤ cur
      ∧ ((cs.prev_run = some "1" ∧ cs.cycle_start = some s ∧ ds.dt_start = none)
          ∨ (cs.prev_run = some "0" ∧ ds.dt_start = some s ∧ cs.cycle_start = none))
      ∧ (cs.cycles.map cycSpan ++ ds.downtimes.map downSpan).Perm L
      ∧ TilesFrom first L s

/-! ### Counter records, Schedule-Cycle Splitter, Cycle-Time Estimator -/

/-- One row of `machining_results.csv`.  `date` is the parsed `Date` column
(`none` models a value `datetime.strptime` rejects, which the splitter's
`except: continue` skips); `runStateTime` and `counter` are the integer values
of `RunStateTime` and `Counter` (`int(...)`, assumed parseable, with the
source's defaults 0 and 1 when the key is absent). -/
structure MRRecord where
  machineName : String
  programFileName : String
  date : Option Int := none
  runStateTime : Int := 0
  counter : Int := 1
deriving DecidableEq

/-- The match test of the `split_schedule_cycles` inner loop (source lines
1000–1018): same machine, same parsed program identity, a parseable date, a
present cycle end, and `|mr_date - cycle_end| < 300` seconds. -/
def cycle_mr_match (mname : String) (cycle : Cycle) (mr : MRRecord) : Bool :=
  decide (mr.machineName = mname)
    && decide (parse_program_name mr.programFileName = parse_program_name cycle.program)
    && match mr.date, cycle.stop with
       | some d, some e => decide (|d - e| < 300)
       | _, _ => false

/-- The sub-cycle emitted `counter` times when a cycle is split. -/
def sub_cycle (prog : String) (sub_duration : ℚ) : Cycle :=
  { start := none, stop := none, program := prog, duration := sub_duration,
    ongoing := false, split_from_schedule := true }

/-- The body of the `split_schedule_cycles` cycle loop (source lines 981–1047)
for a single cycle.  The Python inner loop with `break` takes the first
matching MachiningResult record (`List.find?`); a cycle is split only when
that first match has `counter > 1`, the cycle's duration is positive, and the
cycle is not ongoing; the per-part duration comes from `RunStateTime` when it
is positive, else from an even split of the observed duration. -/
def split_one_cycle (mname : String) (mr_data : List MRRecord) (cycle : Cycle) : List Cycle :=
  if cycle.ongoing then [cycle]
  else
    match mr_data.find? (cycle_mr_match mname cycle) with
    | none => [cycle]
    | some mr =>
      if mr.counter > 1 ∧ cycle.duration > 0 then
        let sub_duration :=
          if mr.runStateTime > 0 then round2 ((mr.runStateTime : ℚ) / (mr.counter : ℚ) / 60)
          else round2 (cycle.duration / (mr.counter : ℚ))
        List.replicate mr.counter.toNat (sub_cycle cycle.program sub_duration)
      else [cycle]

/-- `split_schedule_cycles` (source lines 952–1057): the machine-keyed cycle
dict with every cycle list rebuilt by the per-cycle splitting step.  (File
loading and the error fallback that returns the input unchanged are I/O and
are outside this model.) -/
def split_schedule_cycles (cycles_dict : List (String × List Cycle)) (mr_data : List MRRecord) :
    List (String × List Cycle) :=
  cycles_dict.map (fun mc => (mc.1, mc.2.flatMap (split_one_cycle mc.1 mr_data)))

/-- The loop of `get_actual_cycle_time_from_mr` (source lines 312–331): walk
`mr_data`, skip records of other machines or other program identities, and
collect `run_time / counter / 60` for records with positive `RunStateTime` and
`Counter`. -/
def mr_collect (machine_name program_name : String) (acc : List ℚ) :
    List MRRecord → List ℚ
  | [] => acc
  | mr :: rest =>
    if mr.machineName ≠ machine_name then mr_collect machine_name program_name acc rest
    else if parse_program_name mr.programFileName ≠ parse_program_name program_name then
      mr_collect machine_name program_name acc rest
    else if mr.runStateTime > 0 ∧ mr.counter > 0 then
      mr_collect machine_name program_name
        (acc ++ [(mr.runStateTime : ℚ) / (mr.counter : ℚ) / 60]) rest
    else mr_collect machine_name program_name acc rest

/-- `get_actual_cycle_time_from_mr` (source lines 286–351): the rounded median
of all matching per-part times, or `None` when no record matches.  (The
`if not mr_data` guard returns `None` for the empty list, which the general
path also yields.) -/
def get_actual_cycle_time_from_mr (machine_name program_name : String)
    (mr_data : List MRRecord) : Option ℚ :=
  let cycle_times := mr_collect machine_name program_name [] mr_data
  if cycle_times = [] then none
  else some (round2 (median_sorted (sortQ cycle_times)))

/-- The specification-level description of the values collected by
`get_actual_cycle_time_from_mr`: every counter record matching the machine and
the normalized program identity with positive `RunStateTime` and `Counter`
contributes `run_state_time_seconds / counter / 60`. -/
def mr_cycle_values (machine_name program_name : String) (mr_data : List MRRecord) : List ℚ :=
  mr_data.filterMap (fun mr =>
    if mr.machineName = machine_name
        ∧ parse_program_name mr.programFileName = parse_program_name program_name
        ∧ mr.runStateTime > 0 ∧ mr.counter > 0 then
      some ((mr.runStateTime : ℚ) / (mr.counter : ℚ) / 60)
    else none)

/-- `filter_completed_cycles` (source lines 354–386): durations of cycles that
are closed, not split from a schedule, and at least half a minute long. -/
def filter_completed_cycles (cycles_list : List Cycle) : List ℚ :=
  cycles_list.filterMap (fun c =>
    if c.stop = none then none
    else if c.split_from_schedule then none
    else if c.duration < (1 : ℚ) / 2 then none
    else some c.duration)

/-- The neighbor count of step 4 of `calculate_real_cycle_time`: how many
durations lie within `[v - window, v + window]`. -/
def neighbor_count (sorted_durations : List ℚ) (window v : ℚ) : Nat :=
  sorted_durations.countP (fun d => decide (v - window ≤ d ∧ d ≤ v + window))

/-- Step 6 of `calculate_real_cycle_time`: all durations within `± window` of
the chosen center. -/
def cluster_of (sorted_durations : List ℚ) (window center : ℚ) : List ℚ :=
  sorted_durations.filter (fun d => decide (center - window ≤ d ∧ d ≤ center + window))

/-- `calculate_real_cycle_time` (source lines 389–447), the density-cluster
estimator: sort, take the median, set the window to 30% of it, pick the value
with the most neighbors in its window (ties resolved to the sorted index
closest to `n/2`, Python's `min` keeping the first minimum), and return the
rounded median of the chosen value's window. -/
def calculate_real_cycle_time (durations : List ℚ) : Option ℚ :=
  if durations = [] ∨ durations.length < 3 then none
  else
    let sorted_durations := sortQ durations
    let n := sorted_durations.length
    let median := median_sorted sorted_durations
    let window := median * (3 / 10)
    let neighbor_counts := sorted_durations.enum.map
      (fun iv => (iv.1, iv.2, neighbor_count sorted_durations window iv.2))
    let max_neighbors := (neighbor_counts.map (fun nc => nc.2.2)).foldl max 0
    let centers := neighbor_counts.filter (fun nc => nc.2.2 = max_neighbors)
    let center :=
      if centers.length > 1 then
        pyMin (fun nc => |(nc.1 : ℚ) - (n : ℚ) / 2|) centers
      else centers.headD (0, 0, 0)
    let center_value := center.2.1
    let cluster := cluster_of sorted_durations window center_value
    let cluster_sorted := sortQ cluster
    if cluster_sorted.length = 0 then none
    else some (round2 (median_sorted cluster_sorted))

/-- `calculate_cycle_time_smart` (source lines 450–484): the three-tier
cascade — MachiningResult median, then clustering over the filtered cycle
durations, then clustering over all positive durations. -/
def calculate_cycle_time_smart (machine_name program_name : String)
    (cycles_list : List Cycle) (mr_data : List MRRecord) : Option ℚ :=
  match get_actual_cycle_time_from_mr machine_name program_name mr_data with
  | some actual_time => some actual_time
  | none =>
    let good_durations := filter_completed_cycles cycles_list
    if good_durations.length ≥ 3 then calculate_real_cycle_time good_durations
    else
      let all_durations := (cycles_list.filter (fun c => c.duration > 0)).map (fun c => c.duration)
      if all_durations.length ≥ 3 then calculate_real_cycle_time all_durations
      else none

/-! ### Alert State Machine (`check_and_alert`) -/

/-- `ALERT_THRESHOLD_MIN = 45` (source line 44). -/
def ALERT_THRESHOLD_MIN : ℚ := 45

/-- One value of the persisted `sent_alerts` dict: either a downtime alert
record (a dict with machine, start string, duration, last-alert time) or the
ISO time string stored under the sentinel key `"_last_all_ok_alert"`. -/
inductive AlertEntry where
  | downRec (machine : String) (start : String) (duration : ℚ) (last_alert : Int)
  | okTime (t : Int)
deriving DecidableEq

/-- `prev_alert.get("duration", 0)`.  (In the source this is only ever applied
to downtime records; the `okTime` case is unreachable because the sentinel key
never collides with a `downtime_…` key.) -/
def entry_duration : AlertEntry → ℚ
  | .downRec _ _ duration _ => duration
  | .okTime _ => 0

/-- The parsed content of `sent_alerts.json`: the `last_reset` ISO timestamp
(`none` models a missing/empty value) and the keyed alert dict (an association
list in key-insertion order, mirroring a Python dict). -/
structure AlertsFile where
  last_reset : Option Int
  alerts : List (String × AlertEntry)
deriving DecidableEq

/-- The history-loading prologue of `check_and_alert` (source lines 1280–1307):
a missing or unreadable file, a missing `last_reset`, or a `last_reset` more
than 24 hours old all yield an empty dict; otherwise the stored alerts are
used.  `file = none` models both a missing file and one `json.load` rejects. -/
def load_sent_alerts (current_time : Int) (file : Option AlertsFile) :
    List (String × AlertEntry) :=
  match file with
  | none => []
  | some data =>
    match data.last_reset with
    | none => []
    | some last_reset_dt =>
      if ((current_time - last_reset_dt : Int) : ℚ) / 3600 > 24 then [] else data.alerts

/-- The minute-resolution rendering of a timestamp used inside alert keys.
The source formats `d['start']` with `strftime('%Y-%m-%d_%H:%M')`, i.e. the
start truncated to its minute; rendering the minute count since the epoch is
the same injective function of that truncation.  A downtime produced by
segmentation always carries a start; the `none` case is defined as `""`. -/
def minuteStamp : Option Int → String
  | some t => toString (t / 60)
  | none => ""

/-- `alert_key = f"downtime_{mname}_{d['start'].strftime('%Y-%m-%d_%H:%M')}"`. -/
def downtime_alert_key (mname : String) (d : Downtime) : String :=
  "downtime_" ++ mname ++ "_" ++ minuteStamp d.start

/-- The body of the downtime-alert loop of `check_and_alert` (source lines
1317–1351) for one downtime: `none` when no alert qualifies, `some` of the
appended tuple `(mname, d, alert_key, is_repeat)` otherwise.  `is_ongoing` is
the source's `not d.get("end")`. -/
def downtime_alert_for (sent_alerts : List (String × AlertEntry)) (mname : String)
    (d : Downtime) : Option (String × Downtime × String × Bool) :=
  if d.duration ≥ ALERT_THRESHOLD_MIN then
    let alert_key := downtime_alert_key mname d
    match sent_alerts.lookup alert_key with
    | some prev_alert =>
      if d.stop = none then
        if d.duration - entry_duration prev_alert ≥ 45 then some (mname, d, alert_key, true)
        else none
      else none
    | none => some (mname, d, alert_key, false)
  else none

/-- The downtime-alert collection of `check_and_alert` over the machine-keyed
downtime summaries. -/
def collect_downtime_alerts (sent_alerts : List (String × AlertEntry))
    (downtimes : List (String × DowntimeSummary)) : List (String × Downtime × String × Bool) :=
  downtimes.flatMap (fun md => md.2.downtimes.filterMap (downtime_alert_for sent_alerts md.1))

/-- `mname.split("_")[0] if "_" in mname else mname`: the prefix before the
first underscore. -/
def machine_short_name (mname : String) : String :=
  if mname.toList.contains '_' then (mname.toList.takeWhile (fun c => c ≠ '_')).asString
  else mname

/-- `prog_name = c["program"] or "—"` (Python `or`: an empty string is falsy). -/
def prog_display_name (c : Cycle) : String :=
  if c.program = "" then "—" else c.program

/-- The `by_prog` grouping of `check_and_alert` (source lines 1367–1372): a
Python dict built by insertion, keyed by display program name, preserving
first-occurrence key order and per-key cycle order. -/
def group_by_program (c_list : List Cycle) : List (String × List Cycle) :=
  c_list.foldl (fun by_prog c =>
    let p := prog_display_name c
    if by_prog.any (fun g => g.1 = p) then
      by_prog.map (fun g => if g.1 = p then (g.1, g.2 ++ [c]) else g)
    else by_prog ++ [(p, [c])]) []

/-- The Excel-target lookup of `check_and_alert` (source lines 1386–1396):
scan the target dict in order and take the first entry whose normalized
program, operation number and normalized machine short-name all match. -/
def find_excel_target (excel_targets : List ((String × Nat × String) × ℚ))
    (prog_normalized : String) (op_num : Nat) (machine_short : String) : Option ℚ :=
  (excel_targets.find? (fun e =>
    decide (normalize_program_name e.1.1 = prog_normalized)
      && decide (e.1.2.1 = op_num)
      && decide (normalize_program_name e.1.2.2 = normalize_program_name machine_short))).map
    (fun e => e.2)

/-- The body of the target-alert loop of `check_and_alert` (source lines
1374–1415) for one `(program, cycles)` group of one machine.  `if excel_target:`
is Python truthiness: a found target of 0 is treated exactly like no target. -/
def target_alert_for (mr_data : List MRRecord)
    (excel_targets : List ((String × Nat × String) × ℚ)) (mname : String)
    (pg : String × List Cycle) : Option (String × String × ℚ × ℚ × ℚ × String) :=
  let machine_short := machine_short_name mname
  let prog := pg.1
  match calculate_cycle_time_smart mname prog pg.2 mr_data with
  | none => none
  | some calc_target =>
    let op_num := get_operation_number prog
    let prog_normalized := normalize_program_name prog
    match find_excel_target excel_targets prog_normalized op_num machine_short with
    | none => none
    | some excel_target =>
      if excel_target ≠ 0 then
        let diff_pct := (calc_target - excel_target) / excel_target * 100
        if |diff_pct| > 10 then
          some (machine_short, prog, calc_target, excel_target, diff_pct,
                "target_" ++ mname ++ "_" ++ prog)
        else none
      else none

/-- The target-alert collection of `check_and_alert` over the machine-keyed
cycle dict. -/
def collect_target_alerts (cycles : List (String × List Cycle))
    (excel_targets : List ((String × Nat × String) × ℚ)) (mr_data : List MRRecord) :
    List (String × String × ℚ × ℚ × ℚ × String) :=
  cycles.flatMap (fun mc =>
    (group_by_program mc.2).filterMap (target_alert_for mr_data excel_targets mc.1))

/-- Python dict assignment `h[k] = v`: replace the entry in place if the key
exists, else append. -/
def upsert (h : List (String × AlertEntry)) (k : String) (v : AlertEntry) :
    List (String × AlertEntry) :=
  if h.any (fun p => p.1 = k) then h.map (fun p => if p.1 = k then (k, v) else p)
  else h ++ [(k, v)]

/-- The history update of the downtime-alert rendering loop (source lines
1454–1472): each qualifying downtime stores its machine, start, current
duration and the alert time under its key. -/
def update_history_with_downtime_alerts (sent_alerts : List (String × AlertEntry))
    (downtime_alerts : List (String × Downtime × String × Bool)) (current_time : Int) :
    List (String × AlertEntry) :=
  downtime_alerts.foldl (fun h a =>
    upsert h a.2.2.1 (.downRec a.1 (minuteStamp a.2.1.start) a.2.1.duration current_time))
    sent_alerts

/-- The decision part of one `check_and_alert` run.  The rendered Telegram
text and the delivery call are I/O and are outside this model; `saved` is the
content written back to `sent_alerts.json`. -/
structure CheckResult where
  downtime_alerts : List (String × Downtime × String × Bool)
  target_alerts : List (String × String × ℚ × ℚ × ℚ × String)
  should_send : Bool
  saved : AlertsFile
deriving DecidableEq

/-- The `should_send` throttle of `check_and_alert` (source lines 1493–1510):
with no qualifying alerts, an "all OK" message is sent only when the sentinel
records no such message within the last 4 hours.  (A `downRec` under the
sentinel key cannot occur in histories the program itself writes; the source
would raise there, and the branch is defined as `true`.) -/
def all_ok_should_send (sent_alerts : List (String × AlertEntry)) (current_time : Int) : Bool :=
  match sent_alerts.lookup "_last_all_ok_alert" with
  | some (.okTime last_ok_time) =>
    decide (((current_time - last_ok_time : Int) : ℚ) / 3600 ≥ 4)
  | some (.downRec _ _ _ _) => true
  | none => true

/-- `check_and_alert` (source lines 1250–1525) at the decision level: the
quiet-hours early return (which touches neither alerts nor the persisted
file), history loading with the 24-hour reset, downtime-alert collection with
deduplication, target-alert collection (never consulting the history),
the all-OK 4-hour throttle, and the file finally written (whose `last_reset`
is always refreshed to the current time). -/
def check_and_alert_core (current_hour : Nat) (current_time : Int)
    (downtimes : List (String × DowntimeSummary)) (cycles : List (String × List Cycle))
    (excel_targets : List ((String × Nat × String) × ℚ)) (mr_data : List MRRecord)
    (file : Option AlertsFile) : Option CheckResult :=
  if current_hour ≥ 20 ∨ current_hour < 8 then none
  else
    let sent_alerts := load_sent_alerts current_time file
    let downtime_alerts := collect_downtime_alerts sent_alerts downtimes
    let target_alerts := collect_target_alerts cycles excel_targets mr_data
    let sent_alerts1 := update_history_with_downtime_alerts sent_alerts downtime_alerts current_time
    let no_alerts := downtime_alerts = [] ∧ target_alerts = []
    let should_send := if no_alerts then all_ok_should_send sent_alerts1 current_time else true
    let sent_alerts2 :=
      if should_send ∧ downtime_alerts = [] ∧ target_alerts = [] then
        upsert sent_alerts1 "_last_all_ok_alert" (.okTime current_time)
      else sent_alerts1
    some { downtime_alerts := downtime_alerts, target_alerts := target_alerts,
           should_send := should_send,
           saved := { last_reset := some current_time, alerts := sent_alerts2 } }

/-! ### Raw rows and the malformed-input behavior of segmentation -/

/-- A sample row before timestamp parsing: `date = none` models a `Date` value
that `datetime.strptime` rejects. -/
structure RawRow where
  date : Option Int
  run : Option String
  prog : String
  alarmState : String := "0"
  alarmMessage : String := ""
  alarmNo : String := ""
  powerOn : String := "1"
  setUp : String := "0"
  maintenance : String := "0"
  noOperator : String := "0"
  wait : String := "0"
  feedHoldState : String := "0"
  programStopState : String := "0"
deriving DecidableEq

/-- Parsing one raw row: fails exactly when the timestamp is unparseable
(a missing `RunState` does not raise — `csv.DictReader` yields `None` for it,
which flows into the state machine). -/
def parse_raw_row (r : RawRow) : Option Row :=
  r.date.map (fun t =>
    { ts := t, run := r.run, prog := r.prog, alarmState := r.alarmState,
      alarmMessage := r.alarmMessage, alarmNo := r.alarmNo, powerOn := r.powerOn,
      setUp := r.setUp, maintenance := r.maintenance, noOperator := r.noOperator,
      wait := r.wait, feedHoldState := r.feedHoldState,
      programStopState := r.programStopState })

/-- Sequential parsing of a row list: `none` as soon as any row fails to
parse, mirroring the first uncaught `datetime.strptime` exception. -/
def parse_rows : List RawRow → Option (List Row)
  | [] => some []
  | r :: rest =>
    match parse_raw_row r, parse_rows rest with
    | some row, some rows => some (row :: rows)
    | _, _ => none

/-- `analyze_cycles` on raw rows, with the exception behavior of the source:
`parse = datetime.strptime` is applied to every row inside the loop (and
already inside `filter_last_hours`), with no surrounding `try`, so one
unparseable timestamp aborts the whole analysis (`none`) instead of dropping
the row. -/
def analyze_cycles_checked (raw_rows : List RawRow) : Option (List Cycle) :=
  (parse_rows raw_rows).map analyze_cycles

/-- C1: the program-identity normalizer maps `"WF861-100L-P2.MIN"` and
`"WF861_101L_OP2.min"` to the same normalized base identity, both labels parse
to operation number 2, and `"WF080-920-2.MIN"` (bare `-2` suffix) also parses
to operation number 2; normalization is a deterministic function of the input
label alone (equal labels normalize equally). -/
theorem C1_normalizer_alias_and_operations :
    normalize_program_name "WF861-100L-P2.MIN" = normalize_program_name "WF861_101L_OP2.min"
    ∧ get_operation_number "WF861-100L-P2.MIN" = 2
    ∧ get_operation_number "WF861_101L_OP2.min" = 2
    ∧ get_operation_number "WF080-920-2.MIN" = 2
    ∧ ∀ s t : String, s = t → normalize_program_name s = normalize_program_name t := by
  refine ⟨by decide, by decide, by decide, by decide, ?_⟩
  intro s t h
  rw [h]

/-- C1 witness: the determinism clause of `C1_normalizer_alias_and_operations`
applied at a concrete label. -/
theorem C1_normalizer_witness :
    normalize_program_name "WF080-920-2.MIN" = normalize_program_name "WF080-920-2.MIN" :=
  C1_normalizer_alias_and_operations.2.2.2.2 "WF080-920-2.MIN" "WF080-920-2.MIN" rfl

/-- The accumulator-passing loop of `get_actual_cycle_time_from_mr` collects
exactly the specification-level list of matching per-part times. -/
theorem mr_collect_eq (machine_name program_name : String) (acc : List ℚ)
    (mr_data : List MRRecord) :
    mr_collect machine_name program_name acc mr_data
      = acc ++ mr_cycle_values machine_name program_name mr_data := by
  induction mr_data generalizing acc with
  | nil => simp [mr_collect, mr_cycle_values]
  | cons mr rest ih =>
    by_cases h1 : mr.machineName = machine_name
    · by_cases h2 : parse_program_name mr.programFileName = parse_program_name program_name
      · by_cases h3 : mr.runStateTime > 0 ∧ mr.counter > 0
        · simp [mr_collect, mr_cycle_values, h1, h2, h3, ih]
        · simp [mr_collect, mr_cycle_values, h1, h2, h3, ih]
      · simp [mr_collect, mr_cycle_values, h1, h2, ih]
    · simp [mr_collect, mr_cycle_values, h1, ih]

/-- C3: whenever at least one counter record matches the machine name and the
normalized program identity (with positive `RunStateTime` and `Counter`), the
cycle-time estimate is the rounded median of `run_state_time / counter / 60`
over all matching records, independently of the cycle list — the clustering
tiers are not consulted. -/
theorem C3_estimator_tier1_wins (machine_name program_name : String)
    (cycles_list : List Cycle) (mr_data : List MRRecord)
    (h : mr_cycle_values machine_name program_name mr_data ≠ []) :
    calculate_cycle_time_smart machine_name program_name cycles_list mr_data
      = some (round2 (median_sorted (sortQ (mr_cycle_values machine_name program_name mr_data)))) := by
  have hcol := mr_collect_eq machine_name program_name [] mr_data
  simp only [List.nil_append] at hcol
  unfold calculate_cycle_time_smart get_actual_cycle_time_from_mr
  simp [hcol, h]

/-- C3 witness: one counter record yielding 4.5 min/part wins over five cycle
durations whose mode is 6.0 — the estimate is 4.5, exactly as
`C3_estimator_tier1_wins` dictates at this input. -/
theorem C3_estimator_tier1_witness :
    calculate_cycle_time_smart "M1_M560R" "WF901-907-1.MIN"
      [{ start := some 0, stop := some 360, program := "WF901-907-1.MIN", duration := 6 },
       { start := some 360, stop := some 720, program := "WF901-907-1.MIN", duration := 6 },
       { start := some 720, stop := some 1080, program := "WF901-907-1.MIN", duration := 6 },
       { start := some 1080, stop := some 1440, program := "WF901-907-1.MIN", duration := 6 },
       { start := some 1440, stop := some 1800, program := "WF901-907-1.MIN", duration := 6 }]
      [{ machineName := "M1_M560R", programFileName := "WF901-907-1.MIN",
         date := some 1800, runStateTime := 270, counter := 1 }]
      = some (9 / 2) := by
  rw [C3_estimator_tier1_wins _ _ _ _ (by decide)]
  decide

/-- C6: for a downtime at or above the 45-minute threshold whose key is
already in the persisted history, an alert qualifies exactly when the downtime
is still ongoing and its duration has grown by at least 45 minutes since the
last alert, and a qualifying alert is marked as a repeat; an ended downtime
never re-alerts. -/
theorem C6_downtime_repeat_dedup (sent_alerts : List (String × AlertEntry)) (mname : String)
    (d : Downtime) (prev_alert : AlertEntry)
    (h45 : d.duration ≥ ALERT_THRESHOLD_MIN)
    (hprev : sent_alerts.lookup (downtime_alert_key mname d) = some prev_alert) :
    ((downtime_alert_for sent_alerts mname d).isSome
        ↔ d.stop = none ∧ d.duration - entry_duration prev_alert ≥ 45)
    ∧ ∀ a, downtime_alert_for sent_alerts mname d = some a
        → a = (mname, d, downtime_alert_key mname d, true) := by
  by_cases hstop : d.stop = none
  · by_cases hdelta : d.duration - entry_duration prev_alert ≥ 45
    · simp [downtime_alert_for, h45, hprev, hstop, hdelta]
    · simp [downtime_alert_for, h45, hprev, hstop, hdelta]
  · simp [downtime_alert_for, h45, hprev, hstop]

/-- C6 witness: a downtime last alerted at 50 minutes does not repeat-alert
when re-observed ongoing at 90 minutes (delta 40), and does repeat-alert at 96
minutes (delta 46), by `C6_downtime_repeat_dedup` at these inputs. -/
theorem C6_downtime_repeat_witness :
    downtime_alert_for [("downtime_M1_0", AlertEntry.downRec "M1" "0" 50 0)] "M1"
      { start := some 0, stop := none, duration := 90, reason := "Idle", ongoing := true } = none
    ∧ downtime_alert_for [("downtime_M1_0", AlertEntry.downRec "M1" "0" 50 0)] "M1"
      { start := some 0, stop := none, duration := 96, reason := "Idle", ongoing := true }
      = some ("M1",
          { start := some 0, stop := none, duration := 96, reason := "Idle", ongoing := true },
          "downtime_M1_0", true) := by
  have h90 := C6_downtime_repeat_dedup
    [("downtime_M1_0", AlertEntry.downRec "M1" "0" 50 0)] "M1"
    { start := some 0, stop := none, duration := 90, reason := "Idle", ongoing := true }
    (AlertEntry.downRec "M1" "0" 50 0) (by decide) (by decide)
  have h96 := C6_downtime_repeat_dedup
    [("downtime_M1_0", AlertEntry.downRec "M1" "0" 50 0)] "M1"
    { start := some 0, stop := none, duration := 96, reason := "Idle", ongoing := true }
    (AlertEntry.downRec "M1" "0" 50 0) (by decide) (by decide)
  constructor
  · have hno : ¬ (downtime_alert_for [("downtime_M1_0", AlertEntry.downRec "M1" "0" 50 0)] "M1"
        { start := some 0, stop := none, duration := 90, reason := "Idle",
          ongoing := true }).isSome := by
      rw [h90.1]
      decide
    exact Option.not_isSome_iff_eq_none.mp hno
  · obtain ⟨a, ha⟩ := Option.isSome_iff_exists.mp (h96.1.mpr (by decide))
    rw [ha, h96.2 a ha]
    rfl

/-- C8 counterexample: a persisted history whose `last_reset` is 25 hours old
and which still holds a sentinel all-clear record from 1000 seconds ago.  The
reset empties the whole dict — the sentinel record is not kept — and the
subsequent all-clear evaluation sends again even though the last all-clear was
less than 4 hours ago. -/
theorem C8_reset_counterexample :
    (((90000 : Int) - 0 : Int) : ℚ) / 3600 > 24
    ∧ (AlertsFile.mk (some 0) [("_last_all_ok_alert", AlertEntry.okTime 89000)]).alerts.lookup
        "_last_all_ok_alert" = some (AlertEntry.okTime 89000)
    ∧ load_sent_alerts 90000
        (some (AlertsFile.mk (some 0) [("_last_all_ok_alert", AlertEntry.okTime 89000)])) = []
    ∧ (check_and_alert_core 12 90000 [] [] [] []
        (some (AlertsFile.mk (some 0) [("_last_all_ok_alert", AlertEntry.okTime 89000)]))).map
        CheckResult.should_send = some true := by
  refine ⟨by norm_num, by decide, by decide, by decide⟩

/-- C8 (amended): when the persisted `last_reset` is more than 24 hours old,
the load step discards the whole alert dict — the keyed downtime records *and*
the sentinel all-clear record alike — so evaluation starts from an empty
history. -/
theorem C8_reset_discards_all (current_time last_reset_dt : Int) (f : AlertsFile)
    (h1 : f.last_reset = some last_reset_dt)
    (h2 : ((current_time - last_reset_dt : Int) : ℚ) / 3600 > 24) :
    load_sent_alerts current_time (some f) = []
    ∧ (load_sent_alerts current_time (some f)).lookup "_last_all_ok_alert" = none := by
  have hload : load_sent_alerts current_time (some f) = [] := by
    simp only [load_sent_alerts, h1]
    rw [if_pos h2]
  exact ⟨hload, by rw [hload]; rfl⟩

/-- C8 witness: `C8_reset_discards_all` at the concrete 25-hour-old history. -/
theorem C8_reset_witness :
    load_sent_alerts 90000
      (some (AlertsFile.mk (some 0) [("_last_all_ok_alert", AlertEntry.okTime 89000)])) = [] :=
  (C8_reset_discards_all 90000 0
    (AlertsFile.mk (some 0) [("_last_all_ok_alert", AlertEntry.okTime 89000)])
    rfl (by norm_num)).1

/-- C9 counterexample: a three-sample series whose middle sample has an
unparseable timestamp makes the analysis fail as a whole (`none`), whereas the
claimed drop-and-continue behavior would yield the nonempty analysis of the
two good samples. -/
theorem C9_malformed_counterexample :
    analyze_cycles_checked
      [{ date := some 0, run := some "1", prog := "P.MIN" },
       { date := none, run := some "1", prog := "P.MIN" },
       { date := some 120, run := some "0", prog := "P.MIN" }] = none
    ∧ analyze_cycles
      [{ ts := 0, run := some "1", prog := "P.MIN" },
       { ts := 120, run := some "0", prog := "P.MIN" }] ≠ [] := by
  refine ⟨by decide, by decide⟩

/-- C9 (amended): a sample with an unparseable timestamp is not dropped — it
aborts the analysis of the whole series (`datetime.strptime` raises with no
surrounding handler); when every timestamp parses, the analysis succeeds on
exactly the parsed rows. -/
theorem C9_unparseable_timestamp_aborts (raw_rows : List RawRow) :
    ((∃ r ∈ raw_rows, r.date = none) → analyze_cycles_checked raw_rows = none)
    ∧ ((∀ r ∈ raw_rows, r.date ≠ none) →
        ∃ rows, parse_rows raw_rows = some rows
          ∧ analyze_cycles_checked raw_rows = some (analyze_cycles rows)) := by
  constructor
  · rintro ⟨r, hr, hdate⟩
    have hnone : parse_raw_row r = none := by
      unfold parse_raw_row
      rw [hdate]
      rfl
    have hparse : parse_rows raw_rows = none := by
      induction raw_rows with
      | nil => cases hr
      | cons x xs ih =>
        rcases List.mem_cons.mp hr with hr | hr
        · subst hr
          simp [parse_rows, hnone]
        · have hxs := ih hr
          cases hx : parse_raw_row x <;> simp [parse_rows, hx, hxs]
    unfold analyze_cycles_checked
    rw [hparse]
    rfl
  · intro hall
    have hsome : ∃ rows, parse_rows raw_rows = some rows := by
      induction raw_rows with
      | nil => exact ⟨[], rfl⟩
      | cons x xs ih =>
        obtain ⟨rows, hrows⟩ := ih (fun r hr => hall r (List.mem_cons_of_mem _ hr))
        have hx : ∃ rx, parse_raw_row x = some rx := by
          have hd' := hall x (List.mem_cons_self x xs)
          unfold parse_raw_row
          cases hd : x.date with
          | none => exact absurd hd hd'
          | some t => exact ⟨_, rfl⟩
        obtain ⟨rx, hrx⟩ := hx
        exact ⟨rx :: rows, by simp [parse_rows, hrx, hrows]⟩
    obtain ⟨rows, hrows⟩ := hsome
    exact ⟨rows, hrows, by unfold analyze_cycles_checked; rw [hrows]; rfl⟩

/-- C9 witness: `C9_unparseable_timestamp_aborts` applied to the concrete
mixed series: the bad middle sample makes the checked analysis `none`. -/
theorem C9_unparseable_timestamp_witness :
    analyze_cycles_checked
      [{ date := some 0, run := some "1", prog := "P.MIN" },
       { date := none, run := some "1", prog := "P.MIN" },
       { date := some 120, run := some "0", prog := "P.MIN" }] = none :=
  (C9_unparseable_timestamp_aborts _).1
    ⟨{ date := none, run := some "1", prog := "P.MIN" }, by decide, rfl⟩

/-- C10: a target entry whose minutes value is 0 is treated exactly like an
absent target — Python's `if excel_target:` — so no deviation alert is emitted
for that pair, and every emitted deviation alert carries a nonzero target (the
division `(calculated - target) / target` is never formed with target 0). -/
theorem C10_zero_target_is_absent :
    (∀ (mr_data : List MRRecord) (excel_targets : List ((String × Nat × String) × ℚ))
        (mname : String) (pg : String × List Cycle),
      find_excel_target excel_targets (normalize_program_name pg.1)
          (get_operation_number pg.1) (machine_short_name mname) = some 0 →
        target_alert_for mr_data excel_targets mname pg = none)
    ∧ (∀ (mr_data : List MRRecord) (excel_targets : List ((String × Nat × String) × ℚ))
        (mname : String) (pg : String × List Cycle) a,
      target_alert_for mr_data excel_targets mname pg = some a → a.2.2.2.1 ≠ 0) := by
  constructor
  · intro mr_data excel_targets mname pg hfind
    cases hcalc : calculate_cycle_time_smart mname pg.1 pg.2 mr_data with
    | none => simp [target_alert_for, hcalc]
    | some calc_target => simp [target_alert_for, hcalc, hfind]
  · intro mr_data excel_targets mname pg a ha
    cases hcalc : calculate_cycle_time_smart mname pg.1 pg.2 mr_data with
    | none => simp [target_alert_for, hcalc] at ha
    | some calc_target =>
      cases hfind : find_excel_target excel_targets (normalize_program_name pg.1)
          (get_operation_number pg.1) (machine_short_name mname) with
      | none => simp [target_alert_for, hcalc, hfind] at ha
      | some excel_target =>
        by_cases ht : excel_target = 0
        · simp [target_alert_for, hcalc, hfind, ht] at ha
        · by_cases hp : |(calc_target - excel_target) / excel_target * 100| > 10
          · simp only [target_alert_for, hcalc, hfind, if_pos hp, ht,
              ne_eq, not_false_eq_true, if_true, Option.some.injEq] at ha
            rw [← ha]
            exact ht
          · simp [target_alert_for, hcalc, hfind, ht, hp] at ha

/-- C10 witness: with an estimate available (one counter record giving 4.5)
and a matching target entry of 0 minutes, no deviation alert is emitted, by
`C10_zero_target_is_absent` at these inputs. -/
theorem C10_zero_target_witness :
    target_alert_for
      [{ machineName := "M1", programFileName := "P.MIN", date := some 0,
         runStateTime := 270, counter := 1 }]
      [(("P", 1, "M1"), 0)] "M1" ("P.MIN", []) = none :=
  C10_zero_target_is_absent.1 _ _ _ _ (by decide)

/-- C5 counterexample: a closed 30-minute cycle and two counter records that
both match its machine, identity and 5-minute window — the first with
`Counter = 1`, the second with `Counter = 3`.  The cycle *has* a matching
record with counter > 1, yet the splitter leaves it unchanged, because the
loop `break`s on the first match and its counter is 1. -/
theorem C5_splitter_counterexample :
    (∃ mr ∈ [({ machineName := "M", programFileName := "P.MIN", date := some 1800,
                runStateTime := 0, counter := 1 } : MRRecord),
              { machineName := "M", programFileName := "P.MIN", date := some 1900,
                runStateTime := 5400, counter := 3 }],
        cycle_mr_match "M"
          { start := some 0, stop := some 1800, program := "P.MIN", duration := 30 } mr = true
        ∧ 1 < mr.counter)
    ∧ split_schedule_cycles
        [("M", [{ start := some 0, stop := some 1800, program := "P.MIN", duration := 30 }])]
        [{ machineName := "M", programFileName := "P.MIN", date := some 1800,
           runStateTime := 0, counter := 1 },
         { machineName := "M", programFileName := "P.MIN", date := some 1900,
           runStateTime := 5400, counter := 3 }]
      = [("M", [{ start := some 0, stop := some 1800, program := "P.MIN", duration := 30 }])] := by
  refine ⟨by decide, by decide⟩

/-- C5 (amended): for a non-ongoing cycle the splitter consults only the
*first* counter record (in input order) matching machine, normalized identity
and the 5-minute window around the cycle's end; the cycle is replaced by
exactly `counter` sub-cycles — per-part duration
`run_state_time / counter / 60` when `run_state_time > 0`, else
`duration / counter`, with `start`/`end` absent and the split mark set — only
when that first match has `counter > 1` *and* the cycle's duration is
positive; in every other case (ongoing, no matching record, first match with
`counter ≤ 1`, or non-positive duration) the cycle passes through unchanged. -/
theorem C5_splitter_first_match (mname : String) (mr_data : List MRRecord) (c : Cycle) :
    (c.ongoing = true → split_one_cycle mname mr_data c = [c])
    ∧ (c.ongoing = false → mr_data.find? (cycle_mr_match mname c) = none →
        split_one_cycle mname mr_data c = [c])
    ∧ ∀ mr, c.ongoing = false → mr_data.find? (cycle_mr_match mname c) = some mr →
        ((1 < mr.counter ∧ 0 < c.duration →
          split_one_cycle mname mr_data c
            = List.replicate mr.counter.toNat (sub_cycle c.program
                (if mr.runStateTime > 0 then round2 ((mr.runStateTime : ℚ) / (mr.counter : ℚ) / 60)
                 else round2 (c.duration / (mr.counter : ℚ))))
          ∧ (split_one_cycle mname mr_data c).length = mr.counter.toNat)
        ∧ (¬ (1 < mr.counter ∧ 0 < c.duration) → split_one_cycle mname mr_data c = [c])) := by
  refine ⟨fun hon => by simp [split_one_cycle, hon], fun hon hfind => by
    simp [split_one_cycle, hon, hfind], fun mr hon hfind => ⟨fun hcond => ?_, fun hcond => by
    simp [split_one_cycle, hon, hfind, hcond]⟩⟩
  have hsplit : split_one_cycle mname mr_data c
      = List.replicate mr.counter.toNat (sub_cycle c.program
          (if mr.runStateTime > 0 then round2 ((mr.runStateTime : ℚ) / (mr.counter : ℚ) / 60)
           else round2 (c.duration / (mr.counter : ℚ)))) := by
    simp [split_one_cycle, hon, hfind, hcond.1, hcond.2]
  exact ⟨hsplit, by rw [hsplit, List.length_replicate]⟩

/-- C5 witness: the spec's example through `C5_splitter_first_match` — a
30-minute cycle with one matching record `Counter = 3, RunStateTime = 5400`
becomes exactly 3 sub-cycles of 30.0 minutes with no `start`/`end`. -/
theorem C5_splitter_witness :
    split_one_cycle "M"
      [{ machineName := "M", programFileName := "P.MIN", date := some 1900,
         runStateTime := 5400, counter := 3 }]
      { start := some 0, stop := some 1800, program := "P.MIN", duration := 30 }
      = List.replicate 3 (sub_cycle "P.MIN" 30) := by
  have h := (C5_splitter_first_match "M"
    [{ machineName := "M", programFileName := "P.MIN", date := some 1900,
       runStateTime := 5400, counter := 3 }]
    { start := some 0, stop := some 1800, program := "P.MIN", duration := 30 }).2.2
    { machineName := "M", programFileName := "P.MIN", date := some 1900,
      runStateTime := 5400, counter := 3 } rfl (by decide)
  rw [(h.1 (by decide)).1]
  decide

/-- Every key of `upsert h k v` is either `k` or a key of `h`. -/
theorem upsert_key_provenance (h : List (String × AlertEntry)) (k : String) (v : AlertEntry) :
    ∀ kv ∈ upsert h k v, kv.1 = k ∨ ∃ p ∈ h, p.1 = kv.1 := by
  intro kv hkv
  unfold upsert at hkv
  by_cases hany : h.any (fun p => p.1 = k)
  · rw [if_pos hany] at hkv
    obtain ⟨p, hp, hpe⟩ := List.mem_map.mp hkv
    by_cases hpk : p.1 = k
    · rw [if_pos hpk] at hpe
      left
      rw [← hpe]
    · rw [if_neg hpk] at hpe
      right
      exact ⟨p, hp, by rw [hpe]⟩
  · rw [if_neg hany] at hkv
    rcases List.mem_append.mp hkv with h1 | h1
    · right
      exact ⟨kv, h1, rfl⟩
    · left
      rw [List.mem_singleton.mp h1]

/-- Every key written by the downtime-alert history update is either a key of
the incoming history or the key of one of the qualifying downtime alerts. -/
theorem update_history_key_provenance (downtime_alerts : List (String × Downtime × String × Bool))
    (h : List (String × AlertEntry)) (current_time : Int) :
    ∀ kv ∈ update_history_with_downtime_alerts h downtime_alerts current_time,
      (∃ p ∈ h, p.1 = kv.1) ∨ ∃ a ∈ downtime_alerts, a.2.2.1 = kv.1 := by
  induction downtime_alerts generalizing h with
  | nil => exact fun kv hkv => Or.inl ⟨kv, hkv, rfl⟩
  | cons a rest ih =>
    intro kv hkv
    have hkv' : kv ∈ update_history_with_downtime_alerts
        (upsert h a.2.2.1 (.downRec a.1 (minuteStamp a.2.1.start) a.2.1.duration current_time))
        rest current_time := hkv
    rcases ih _ kv hkv' with ⟨p, hp, hpe⟩ | ⟨b, hb, hbe⟩
    · rcases upsert_key_provenance h a.2.2.1 _ p hp with h1 | ⟨q, hq, hqe⟩
      · right
        exact ⟨a, List.mem_cons_self a rest, by rw [h1] at hpe; exact hpe⟩
      · left
        exact ⟨q, hq, by rw [hqe, hpe]⟩
    · right
      exact ⟨b, List.mem_cons_of_mem a hb, hbe⟩

/-- C7: outside quiet hours, the deviation alerts of a run are a function of
the cycles, targets and counter data alone — identical for every persisted
history; for a pair with an estimate and a nonzero target, an alert with
`diff_pct = (calculated - target) / target * 100` is emitted exactly when
`|diff_pct| > 10`; a nonempty deviation-alert list always makes the payload
send; and the persisted history is never extended by a deviation alert — every
saved key comes from the loaded history, a downtime alert, or the all-clear
sentinel. -/
theorem C7_deviation_alerts_every_run (current_hour : Nat) (current_time : Int)
    (downtimes : List (String × DowntimeSummary)) (cycles : List (String × List Cycle))
    (excel_targets : List ((String × Nat × String) × ℚ)) (mr_data : List MRRecord)
    (mname : String) (pg : String × List Cycle) (calc_target excel_target : ℚ)
    (hhour : ¬ (current_hour ≥ 20 ∨ current_hour < 8))
    (hcalc : calculate_cycle_time_smart mname pg.1 pg.2 mr_data = some calc_target)
    (hfind : find_excel_target excel_targets (normalize_program_name pg.1)
        (get_operation_number pg.1) (machine_short_name mname) = some excel_target)
    (ht : excel_target ≠ 0) :
    (∀ file, (check_and_alert_core current_hour current_time downtimes cycles excel_targets
        mr_data file).map CheckResult.target_alerts
      = some (collect_target_alerts cycles excel_targets mr_data))
    ∧ (|(calc_target - excel_target) / excel_target * 100| > 10 →
        target_alert_for mr_data excel_targets mname pg
          = some (machine_short_name mname, pg.1, calc_target, excel_target,
              (calc_target - excel_target) / excel_target * 100, "target_" ++ mname ++ "_" ++ pg.1))
    ∧ (¬ |(calc_target - excel_target) / excel_target * 100| > 10 →
        target_alert_for mr_data excel_targets mname pg = none)
    ∧ (∀ file r, check_and_alert_core current_hour current_time downtimes cycles excel_targets
          mr_data file = some r → r.target_alerts ≠ [] → r.should_send = true)
    ∧ (∀ file r, check_and_alert_core current_hour current_time downtimes cycles excel_targets
          mr_data file = some r →
        ∀ kv ∈ r.saved.alerts, kv.1 = "_last_all_ok_alert"
          ∨ (∃ p ∈ load_sent_alerts current_time file, p.1 = kv.1)
          ∨ ∃ a ∈ collect_downtime_alerts (load_sent_alerts current_time file) downtimes,
              a.2.2.1 = kv.1) := by
  refine ⟨fun file => by simp [check_and_alert_core, hhour], fun hp => by
    simp [target_alert_for, hcalc, hfind, ht, hp], fun hp => by
    simp [target_alert_for, hcalc, hfind, ht, hp], fun file r hr hta => ?_, fun file r hr => ?_⟩
  · simp only [check_and_alert_core, if_neg hhour, Option.some.injEq] at hr
    subst hr
    simp only at hta ⊢
    by_cases hno : collect_downtime_alerts (load_sent_alerts current_time file) downtimes = []
        ∧ collect_target_alerts cycles excel_targets mr_data = []
    · exact absurd hno.2 hta
    · simp [hno]
  · simp only [check_and_alert_core, if_neg hhour, Option.some.injEq] at hr
    subst hr
    intro kv hkv
    simp only at hkv
    set s0 := load_sent_alerts current_time file with hs0
    set da := collect_downtime_alerts s0 downtimes with hda
    set s1 := update_history_with_downtime_alerts s0 da current_time with hs1
    by_cases hcond : (if da = [] ∧ collect_target_alerts cycles excel_targets mr_data = []
        then all_ok_should_send s1 current_time else true) = true
        ∧ da = [] ∧ collect_target_alerts cycles excel_targets mr_data = []
    · rw [if_pos hcond] at hkv
      rcases upsert_key_provenance s1 "_last_all_ok_alert" _ kv hkv with h1 | ⟨p, hp, hpe⟩
      · exact Or.inl h1
      · rcases update_history_key_provenance da s0 current_time p hp with ⟨q, hq, hqe⟩ | ⟨a, ha, hae⟩
        · exact Or.inr (Or.inl ⟨q, hq, by rw [hqe, hpe]⟩)
        · exact Or.inr (Or.inr ⟨a, ha, by rw [hae, hpe]⟩)
    · rw [if_neg hcond] at hkv
      rcases update_history_key_provenance da s0 current_time kv hkv with ⟨q, hq, hqe⟩ | ⟨a, ha, hae⟩
      · exact Or.inr (Or.inl ⟨q, hq, hqe⟩)
      · exact Or.inr (Or.inr ⟨a, ha, hae⟩)

/-- C7 witness: `C7_deviation_alerts_every_run` at concrete inputs — an
estimate of 4.5 against a target of 10 (55% faster) emits the deviation alert
with `diff_pct = (4.5 - 10) / 10 * 100`. -/
theorem C7_deviation_alerts_witness :
    target_alert_for
      [{ machineName := "M1", programFileName := "P.MIN", date := some 0,
         runStateTime := 270, counter := 1 }]
      [(("P", 1, "M1"), 10)] "M1" ("P.MIN", [])
      = some ("M1", "P.MIN", 9 / 2, 10, (9 / 2 - 10) / 10 * 100, "target_M1_P.MIN") := by
  have h := C7_deviation_alerts_every_run 12 0 [] [("M1", [])] [(("P", 1, "M1"), 10)]
    [{ machineName := "M1", programFileName := "P.MIN", date := some 0,
       runStateTime := 270, counter := 1 }]
    "M1" ("P.MIN", []) (9 / 2) 10 (by decide) (by decide) (by decide) (by norm_num)
  exact h.2.1 (by norm_num)

/-- `sortQ` preserves membership. -/
theorem mem_sortQ {d : ℚ} {l : List ℚ} : d ∈ sortQ l ↔ d ∈ l :=
  List.mem_insertionSort _

/-- `sortQ` preserves length. -/
theorem sortQ_length (l : List ℚ) : (sortQ l).length = l.length :=
  List.length_insertionSort _ _

/-- A `getD _ 0` read from a list of nonnegative rationals is nonnegative. -/
theorem getD_zero_nonneg : ∀ (l : List ℚ) (i : Nat), (∀ d ∈ l, 0 ≤ d) → 0 ≤ l.getD i 0 := by
  intro l
  induction l with
  | nil => intro i _; simp [List.getD]
  | cons x xs ih =>
    intro i h
    cases i with
    | zero => exact h x (List.mem_cons_self x xs)
    | succ j =>
      have := ih j (fun d hd => h d (List.mem_cons_of_mem x hd))
      simpa [List.getD] using this

/-- The even/odd median of a list of nonnegative rationals is nonnegative. -/
theorem median_sorted_nonneg (l : List ℚ) (h : ∀ d ∈ l, 0 ≤ d) : 0 ≤ median_sorted l := by
  by_cases hpar : l.length % 2 = 0
  · simp only [median_sorted, if_pos hpar]
    have h1 := getD_zero_nonneg l (l.length / 2 - 1) h
    have h2 := getD_zero_nonneg l (l.length / 2) h
    positivity
  · simp only [median_sorted, if_neg hpar]
    exact getD_zero_nonneg l (l.length / 2) h

/-- The second component of an `enumFrom` element is a list element. -/
theorem snd_mem_of_mem_enumFrom {α : Type} :
    ∀ (l : List α) (n : Nat) (p : Nat × α), p ∈ l.enumFrom n → p.2 ∈ l := by
  intro l
  induction l with
  | nil => intro n p hp; cases hp
  | cons x xs ih =>
    intro n p hp
    rcases List.mem_cons.mp hp with h | h
    · subst h
      exact List.mem_cons_self x xs
    · exact List.mem_cons_of_mem x (ih (n + 1) p h)

/-- `foldl max` dominates the seed and every list element. -/
theorem foldl_max_bounds (l : List Nat) :
    ∀ a : Nat, a ≤ l.foldl max a ∧ ∀ x ∈ l, x ≤ l.foldl max a := by
  induction l with
  | nil => intro a; exact ⟨le_refl a, fun x hx => absurd hx (List.not_mem_nil x)⟩
  | cons y ys ih =>
    intro a
    obtain ⟨h1, h2⟩ := ih (max a y)
    rw [List.foldl_cons]
    refine ⟨le_trans (le_max_left a y) h1, ?_⟩
    intro x hx
    rcases List.mem_cons.mp hx with h | h
    · subst h
      exact le_trans (le_max_right a x) h1
    · exact h2 x h

/-- `foldl max` is the seed or one of the list elements. -/
theorem foldl_max_mem (l : List Nat) : ∀ a : Nat, l.foldl max a = a ∨ l.foldl max a ∈ l := by
  induction l with
  | nil => intro a; exact Or.inl rfl
  | cons y ys ih =>
    intro a
    rw [List.foldl_cons]
    rcases ih (max a y) with h | h
    · by_cases hay : a ≤ y
      · right
        rw [h, max_eq_right hay]
        exact List.mem_cons_self y ys
      · left
        rw [h, max_eq_left (le_of_not_le hay)]
    · right
      exact List.mem_cons_of_mem y h

/-- The fold underlying `pyMin` returns the seed or a list element. -/
theorem pyMin_foldl_mem {α : Type} (key : α → ℚ) :
    ∀ (cs : List α) (c : α),
      cs.foldl (fun best y => if key y < key best then y else best) c ∈ c :: cs := by
  intro cs
  induction cs with
  | nil => intro c; exact List.mem_singleton.mpr rfl
  | cons y ys ih =>
    intro c
    rw [List.foldl_cons]
    have hmem := ih (if key y < key c then y else c)
    rcases List.mem_cons.mp hmem with h | h
    · rw [h]
      by_cases hk : key y < key c
      · rw [if_pos hk]
        exact List.mem_cons_of_mem c (List.mem_cons_self y ys)
      · rw [if_neg hk]
        exact List.mem_cons_self c (y :: ys)
    · exact List.mem_cons_of_mem c (List.mem_cons_of_mem y h)

/-- The fold underlying `pyMin` attains a minimal key among the seed and the
list elements. -/
theorem pyMin_foldl_le {α : Type} (key : α → ℚ) :
    ∀ (cs : List α) (c : α),
      key (cs.foldl (fun best y => if key y < key best then y else best) c) ≤ key c
      ∧ ∀ y ∈ cs,
          key (cs.foldl (fun best y => if key y < key best then y else best) c) ≤ key y := by
  intro cs
  induction cs with
  | nil => intro c; exact ⟨le_refl _, fun y hy => absurd hy (List.not_mem_nil y)⟩
  | cons y ys ih =>
    intro c
    rw [List.foldl_cons]
    obtain ⟨h1, h2⟩ := ih (if key y < key c then y else c)
    have hyc : key (if key y < key c then y else c) ≤ key c
        ∧ key (if key y < key c then y else c) ≤ key y := by
      by_cases hk : key y < key c
      · rw [if_pos hk]
        exact ⟨le_of_lt hk, le_refl _⟩
      · rw [if_neg hk]
        exact ⟨le_refl _, le_of_not_lt hk⟩
    refine ⟨le_trans h1 hyc.1, ?_⟩
    intro z hz
    rcases List.mem_cons.mp hz with h | h
    · subst h
      exact le_trans h1 hyc.2
    · exact h2 z h

/-- Python's `min(centers, key=...)` / `centers[0]` choice of
`calculate_real_cycle_time` picks a member of `centers` whose key is minimal
over `centers`. -/
theorem center_choice_spec (key : Nat × ℚ × Nat → ℚ) (centers : List (Nat × ℚ × Nat))
    (hne : centers ≠ []) :
    (if centers.length > 1 then pyMin key centers else centers.headD (0, 0, 0)) ∈ centers
    ∧ ∀ q ∈ centers,
        key (if centers.length > 1 then pyMin key centers else centers.headD (0, 0, 0))
          ≤ key q := by
  cases centers with
  | nil => exact absurd rfl hne
  | cons c cs =>
    by_cases h1 : (c :: cs).length > 1
    · rw [if_pos h1]
      refine ⟨pyMin_foldl_mem key cs c, ?_⟩
      intro q hq
      obtain ⟨hc, hcs⟩ := pyMin_foldl_le key cs c
      rcases List.mem_cons.mp hq with h | h
      · subst h
        exact hc
      · exact hcs q h
    · rw [if_neg h1]
      have hcs : cs = [] := by
        simp only [List.length_cons, gt_iff_lt] at h1
        have : cs.length = 0 := by omega
        exact List.eq_nil_of_length_eq_zero this
      subst hcs
      refine ⟨List.mem_singleton.mpr rfl, ?_⟩
      intro q hq
      rw [List.mem_singleton.mp hq]
      simp [List.headD]

/-- C4: the density-cluster estimator returns `none` for fewer than 3
durations; for at least 3 nonnegative durations it returns the rounded median
of the cluster around a center value that has the maximum number of neighbors
within the ±(0.30·median) window, ties resolved to the sorted-list index
closest to the midpoint `n/2`; and on `[5, 5, 5, 5, 20]` it returns 5, not the
arithmetic mean 8. -/
theorem C4_density_cluster_estimator :
    (∀ durations : List ℚ, durations.length < 3 → calculate_real_cycle_time durations = none)
    ∧ (∀ durations : List ℚ, 3 ≤ durations.length → (∀ d ∈ durations, 0 ≤ d) →
        ∃ i center_value,
          (i, center_value) ∈ (sortQ durations).enum
          ∧ (∀ p ∈ (sortQ durations).enum,
              neighbor_count (sortQ durations) (median_sorted (sortQ durations) * (3 / 10)) p.2
                ≤ neighbor_count (sortQ durations)
                    (median_sorted (sortQ durations) * (3 / 10)) center_value)
          ∧ (∀ p ∈ (sortQ durations).enum,
              neighbor_count (sortQ durations) (median_sorted (sortQ durations) * (3 / 10)) p.2
                = neighbor_count (sortQ durations)
                    (median_sorted (sortQ durations) * (3 / 10)) center_value →
              |(i : ℚ) - ((sortQ durations).length : ℚ) / 2|
                ≤ |(p.1 : ℚ) - ((sortQ durations).length : ℚ) / 2|)
          ∧ calculate_real_cycle_time durations
              = some (round2 (median_sorted (sortQ (cluster_of (sortQ durations)
                  (median_sorted (sortQ durations) * (3 / 10)) center_value)))))
    ∧ calculate_real_cycle_time [5, 5, 5, 5, 20] = some 5
    ∧ (5 : ℚ) ≠ (5 + 5 + 5 + 5 + 20) / 5 := by
  refine ⟨?_, ?_, by decide, by norm_num⟩
  · intro durations hlen
    unfold calculate_real_cycle_time
    rw [if_pos (Or.inr hlen)]
  · intro durations hlen hnonneg
    have hcond : ¬ (durations = [] ∨ durations.length < 3) := by
      push_neg
      exact ⟨fun h0 => by rw [h0] at hlen; simp at hlen, by omega⟩
    set S := sortQ durations with hS
    set n := S.length with hn
    set w := median_sorted S * (3 / 10) with hw
    set ncs := S.enum.map (fun iv => (iv.1, iv.2, neighbor_count S w iv.2)) with hncs
    set mx := (ncs.map (fun nc => nc.2.2)).foldl max 0 with hmx
    set centers := ncs.filter (fun nc => nc.2.2 = mx) with hcenters
    set C := (if centers.length > 1 then pyMin (fun nc => |(nc.1 : ℚ) - (n : ℚ) / 2|) centers
              else centers.headD (0, 0, 0)) with hC
    have hSnn : ∀ d ∈ S, 0 ≤ d := fun d hd => hnonneg d (mem_sortQ.mp hd)
    have hw0 : 0 ≤ w := by
      rw [hw]
      exact mul_nonneg (median_sorted_nonneg S hSnn) (by norm_num)
    have hcnt1 : ∀ p ∈ S.enum, 1 ≤ neighbor_count S w p.2 := by
      intro p hp
      have hmem : p.2 ∈ S := snd_mem_of_mem_enumFrom S 0 p hp
      have : 0 < S.countP (fun d => decide (p.2 - w ≤ d ∧ d ≤ p.2 + w)) := by
        rw [List.countP_pos_iff]
        exact ⟨p.2, hmem, by simp only [decide_eq_true_eq]; constructor <;> linarith⟩
      unfold neighbor_count
      omega
    have hle_mx : ∀ p ∈ S.enum, neighbor_count S w p.2 ≤ mx := by
      intro p hp
      have h1 : (p.1, p.2, neighbor_count S w p.2) ∈ ncs := by
        rw [hncs]
        exact List.mem_map.mpr ⟨p, hp, rfl⟩
      have h2 : neighbor_count S w p.2 ∈ ncs.map (fun nc => nc.2.2) :=
        List.mem_map.mpr ⟨_, h1, rfl⟩
      exact (foldl_max_bounds _ 0).2 _ h2
    have henum_ne : S.enum ≠ [] := by
      have h3 : 3 ≤ S.length := by rw [hS, sortQ_length]; exact hlen
      intro h0
      have := List.enum_length (l := S)
      rw [h0] at this
      simp at this
      omega
    have hmx_mem : ∃ nc ∈ ncs, nc.2.2 = mx := by
      rcases foldl_max_mem (ncs.map (fun nc => nc.2.2)) 0 with h0 | hmem
      · exfalso
        obtain ⟨p, hp⟩ := List.exists_mem_of_ne_nil _ henum_ne
        have h1 := hcnt1 p hp
        have h2 := hle_mx p hp
        rw [hmx] at *
        omega
      · obtain ⟨nc, hnc, he⟩ := List.mem_map.mp hmem
        exact ⟨nc, hnc, he⟩
    obtain ⟨nc0, hnc0, hnc0e⟩ := hmx_mem
    have hcen_ne : centers ≠ [] := by
      have hin : nc0 ∈ centers := by
        rw [hcenters]
        exact List.mem_filter.mpr ⟨hnc0, by simp [hnc0e]⟩
      exact List.ne_nil_of_mem hin
    obtain ⟨hCmem, hCmin⟩ := center_choice_spec (fun nc => |(nc.1 : ℚ) - (n : ℚ) / 2|)
      centers hcen_ne
    rw [← hC] at hCmem hCmin
    have hCfil := List.mem_filter.mp (hcenters ▸ hCmem)
    have hCmax : C.2.2 = mx := by
      have := hCfil.2
      simpa using this
    obtain ⟨iv, hiv, hive⟩ := List.mem_map.mp (hncs ▸ hCfil.1)
    refine ⟨iv.1, iv.2, ?_, ?_, ?_, ?_⟩
    · simpa using hiv
    · intro p hp
      have hcv : neighbor_count S w iv.2 = mx := by
        rw [← hCmax, ← hive]
      rw [hcv]
      exact hle_mx p hp
    · intro p hp hpe
      have hcv : neighbor_count S w iv.2 = mx := by
        rw [← hCmax, ← hive]
      have hq : (p.1, p.2, neighbor_count S w p.2) ∈ centers := by
        rw [hcenters]
        refine List.mem_filter.mpr ⟨?_, by simp [hpe, hcv]⟩
        rw [hncs]
        exact List.mem_map.mpr ⟨p, hp, rfl⟩
      have := hCmin _ hq
      rw [← hive] at this
      exact this
    · have hresult : calculate_real_cycle_time durations
          = (if (sortQ (cluster_of S w C.2.1)).length = 0 then none
             else some (round2 (median_sorted (sortQ (cluster_of S w C.2.1))))) := by
        unfold calculate_real_cycle_time
        rw [if_neg hcond]
      have hcv2 : C.2.1 = iv.2 := by rw [← hive]
      have hcl_ne : (sortQ (cluster_of S w iv.2)).length ≠ 0 := by
        have hmem : iv.2 ∈ cluster_of S w iv.2 := by
          unfold cluster_of
          refine List.mem_filter.mpr ⟨snd_mem_of_mem_enumFrom S 0 iv hiv, ?_⟩
          simp only [decide_eq_true_eq]
          constructor <;> linarith
        rw [sortQ_length]
        exact fun h0 => absurd (List.eq_nil_of_length_eq_zero h0 ▸ hmem) (List.not_mem_nil _)
      rw [hresult, hcv2, if_neg hcl_ne]

/-- C4 witness: `C4_density_cluster_estimator` applied at concrete inputs —
two durations are too few (result absent), and `[5, 5, 5, 5, 20]` yields 5. -/
theorem C4_density_cluster_witness :
    calculate_real_cycle_time [5, 5] = none
    ∧ calculate_real_cycle_time [5, 5, 5, 5, 20] = some 5 :=
  ⟨C4_density_cluster_estimator.1 [5, 5] (by decide), C4_density_cluster_estimator.2.2.1⟩

/-- A tiling runs left to right. -/
theorem tilesFrom_le {a c : Int} {L : List (Int × Int)} (h : TilesFrom a L c) : a ≤ c := by
  induction h with
  | nil => exact le_refl _
  | cons hab _ ih => exact le_trans hab ih

/-- A tiling extends on the right by an interval starting at its endpoint. -/
theorem tilesFrom_append {a b c : Int} {L : List (Int × Int)}
    (h : TilesFrom a L b) (hbc : b ≤ c) : TilesFrom a (L ++ [(b, c)]) c := by
  induction h with
  | nil => exact TilesFrom.cons hbc (TilesFrom.nil c)
  | cons hab _ ih => exact TilesFrom.cons hab (ih hbc)

/-- Every interval of a tiling lies between the tiling's endpoints and is
itself well ordered. -/
theorem tilesFrom_bounds {a c : Int} {L : List (Int × Int)} (h : TilesFrom a L c) :
    ∀ p ∈ L, a ≤ p.1 ∧ p.1 ≤ p.2 ∧ p.2 ≤ c := by
  induction h with
  | nil => exact fun p hp => absurd hp (List.not_mem_nil p)
  | cons hab ht ih =>
    intro p hp
    rcases List.mem_cons.mp hp with h1 | h1
    · subst h1
      exact ⟨le_refl _, hab, tilesFrom_le ht⟩
    · obtain ⟨h2, h3, h4⟩ := ih p h1
      exact ⟨le_trans hab h2, h3, h4⟩

/-- The intervals of a tiling are pairwise ordered: an earlier interval ends
no later than a later one starts. -/
theorem tilesFrom_pairwise {a c : Int} {L : List (Int × Int)} (h : TilesFrom a L c) :
    L.Pairwise (fun p q => p.2 ≤ q.1) := by
  induction h with
  | nil => exact List.Pairwise.nil
  | cons hab ht ih =>
    exact List.Pairwise.cons (fun q hq => (tilesFrom_bounds ht q hq).1) ih

/-- A tiling of a nondegenerate interval covers every point of it. -/
theorem tilesFrom_cover {a c : Int} {L : List (Int × Int)} (h : TilesFrom a L c) :
    ∀ t : Int, a ≤ t → t ≤ c → a < c → ∃ p ∈ L, p.1 ≤ t ∧ t ≤ p.2 := by
  induction h with
  | nil =>
    intro t _ _ hac
    exact absurd hac (lt_irrefl _)
  | cons hab ht ih =>
    intro t hat htc _
    rename_i a' b' c' L' _
    by_cases htb : t ≤ b'
    · exact ⟨(a', b'), List.mem_cons_self _ _, hat, htb⟩
    · have hbt : b' < t := lt_of_not_le htb
      obtain ⟨p, hp, h1, h2⟩ := ih t (le_of_lt hbt) htc (lt_of_lt_of_le hbt htc)
      exact ⟨p, List.mem_cons_of_mem _ hp, h1, h2⟩

/-- Appending one element at the end of the first of two concatenated lists is
a permutation of appending it at the very end. -/
theorem perm_append_swap_right {α : Type} (A B : List α) (x : α) :
    ((A ++ [x]) ++ B).Perm ((A ++ B) ++ [x]) := by
  have h1 : (A ++ [x]) ++ B = A ++ ([x] ++ B) := List.append_assoc A [x] B
  have h2 : (A ++ ([x] ++ B)).Perm (A ++ (B ++ [x])) :=
    List.Perm.append_left A List.perm_append_comm
  have h3 : A ++ (B ++ [x]) = (A ++ B) ++ [x] := (List.append_assoc A B [x]).symm
  rw [h1, ← h3]
  exact h2

/-- A positive whole number of seconds yields a positive rounded minute count:
`round((d/60), 2) > 0` for `d ≥ 1`. -/
theorem round2_sixtieth_pos (d : Int) (hd : 0 < d) : 0 < round2 ((d : ℚ) / 60) := by
  unfold round2
  have h1 : (1 : ℤ) ≤ round ((d : ℚ) / 60 * 100) := by
    rw [round_eq, Int.le_floor]
    have : (1 : ℚ) ≤ (d : ℚ) := by exact_mod_cast hd
    push_cast
    linarith
  have h2 : (0 : ℚ) < ((round ((d : ℚ) / 60 * 100) : ℤ) : ℚ) := by
    exact_mod_cast lt_of_lt_of_le zero_lt_one h1
  positivity

/-- `getLastD` commutes with `map`. -/
theorem getLastD_map {α β : Type} (f : α → β) :
    ∀ (l : List α) (d : α), (l.map f).getLastD (f d) = f (l.getLastD d) := by
  intro l
  induction l with
  | nil => intro d; rfl
  | cons x xs ih =>
    intro d
    rw [List.map_cons, List.getLastD_cons, List.getLastD_cons]
    exact ih x

/-- The joint invariant holds after the first sample is processed from the
initial states of the two loops. -/
theorem inv_init (r : Row) (hw : WFRow r) :
    Inv r.ts r.ts (cycStep ⟨[], none, none, none, ""⟩ r) (downStep ⟨[], none, none, ""⟩ r) := by
  rcases hw with hrun1 | hrun0
  · have hc_cy : (cycStep ⟨[], none, none, none, ""⟩ r).cycles = [] := by
      simp [cycStep, hrun1]
    have hc_cs : (cycStep ⟨[], none, none, none, ""⟩ r).cycle_start = some r.ts := by
      simp [cycStep, hrun1]
    have hc_pr : (cycStep ⟨[], none, none, none, ""⟩ r).prev_run = r.run := by
      simp [cycStep]
    have hd_dt : (downStep ⟨[], none, none, ""⟩ r).downtimes = [] := by
      simp [downStep, hrun1]
    have hd_ds : (downStep ⟨[], none, none, ""⟩ r).dt_start = none := by
      simp [downStep, hrun1]
    have hd_pr : (downStep ⟨[], none, none, ""⟩ r).prev_run = r.run := by
      simp [downStep]
    refine ⟨?_, ?_, ?_, r.ts, [], le_refl _, le_refl _,
      Or.inl ⟨?_, hc_cs, hd_ds⟩, ?_, TilesFrom.nil r.ts⟩
    · rw [hd_pr, hc_pr]
    · rw [hc_cy]
      intro c hc
      cases hc
    · rw [hd_dt]
      intro d hd
      cases hd
    · rw [hc_pr, hrun1]
    · rw [hc_cy, hd_dt]
      rfl
  · have hc_cy : (cycStep ⟨[], none, none, none, ""⟩ r).cycles = [] := by
      simp [cycStep, hrun0]
    have hc_cs : (cycStep ⟨[], none, none, none, ""⟩ r).cycle_start = none := by
      simp [cycStep, hrun0]
    have hc_pr : (cycStep ⟨[], none, none, none, ""⟩ r).prev_run = r.run := by
      simp [cycStep]
    have hd_dt : (downStep ⟨[], none, none, ""⟩ r).downtimes = [] := by
      simp [downStep, hrun0]
    have hd_ds : (downStep ⟨[], none, none, ""⟩ r).dt_start = some r.ts := by
      simp [downStep, hrun0]
    have hd_pr : (downStep ⟨[], none, none, ""⟩ r).prev_run = r.run := by
      simp [downStep]
    refine ⟨?_, ?_, ?_, r.ts, [], le_refl _, le_refl _,
      Or.inr ⟨?_, hd_ds, hc_cs⟩, ?_, TilesFrom.nil r.ts⟩
    · rw [hd_pr, hc_pr]
    · rw [hc_cy]
      intro c hc
      cases hc
    · rw [hd_dt]
      intro d hd
      cases hd
    · rw [hc_pr, hrun0]
    · rw [hc_cy, hd_dt]
      rfl

/-- One well-formed sample with a timestamp at or after the last processed
one preserves the joint invariant. -/
theorem inv_step (first cur : Int) (cs : CycState) (ds : DownState) (r : Row)
    (hw : WFRow r) (hcur : cur ≤ r.ts) (hinv : Inv first cur cs ds) :
    Inv first r.ts (cycStep cs r) (downStep ds r) := by
  obtain ⟨hpr, hcc, hdc, s, L, hfs, hsc, hstate, hperm, htil⟩ := hinv
  have hsr : s ≤ r.ts := le_trans hsc hcur
  have hc_pr : (cycStep cs r).prev_run = r.run := by simp [cycStep]
  have hd_pr : (downStep ds r).prev_run = r.run := by simp [downStep]
  rcases hstate with ⟨hprev1, hcst, hdst⟩ | ⟨hprev0, hdst, hcst⟩
  · -- the machine was running
    have hdprev : ds.prev_run = some "1" := by rw [hpr, hprev1]
    rcases hw with hrun1 | hrun0
    · -- still running
      have hd_dt : (downStep ds r).downtimes = ds.downtimes := by
        simp [downStep, hrun1, hdprev]
      have hd_ds : (downStep ds r).dt_start = ds.dt_start := by
        simp [downStep, hrun1, hdprev]
      by_cases hpp : some (parse_program_name r.prog) = cs.prev_prog_parsed
      · -- same program: the open cycle continues
        have hc_cy : (cycStep cs r).cycles = cs.cycles := by
          simp [cycStep, hrun1, hprev1, hpp]
        have hc_cs : (cycStep cs r).cycle_start = cs.cycle_start := by
          simp [cycStep, hrun1, hprev1, hpp]
        refine ⟨(by rw [hd_pr, hc_pr]), (by rw [hc_cy]; exact hcc), (by rw [hd_dt]; exact hdc),
          s, L, hfs, hsr,
          Or.inl ⟨(by rw [hc_pr, hrun1]), (by rw [hc_cs]; exact hcst),
            (by rw [hd_ds]; exact hdst)⟩,
          ?_, htil⟩
        rw [hc_cy, hd_dt]
        exact hperm
      · -- program change: close the cycle at r.ts and reopen there
        have hc_cy : (cycStep cs r).cycles
            = cs.cycles ++ [closedCycle s r.ts cs.cycle_prog] := by
          simp [cycStep, hrun1, hprev1, hpp, hcst]
        have hc_cs : (cycStep cs r).cycle_start = some r.ts := by
          simp [cycStep, hrun1, hprev1, hpp, hcst]
        refine ⟨(by rw [hd_pr, hc_pr]), ?_, (by rw [hd_dt]; exact hdc),
          r.ts, L ++ [(s, r.ts)], le_trans hfs hsr, le_refl _,
          Or.inl ⟨(by rw [hc_pr, hrun1]), hc_cs, (by rw [hd_ds]; exact hdst)⟩,
          ?_, tilesFrom_append htil hsr⟩
        · rw [hc_cy]
          intro c hcm
          rcases List.mem_append.mp hcm with h1 | h1
          · exact hcc c h1
          · rw [List.mem_singleton.mp h1]
            exact ⟨rfl, rfl⟩
        · rw [hc_cy, hd_dt, List.map_append]
          have h1 := perm_append_swap_right (cs.cycles.map cycSpan)
            (ds.downtimes.map downSpan) ((s, r.ts) : Int × Int)
          have h2 := hperm.append_right [((s, r.ts) : Int × Int)]
          simpa [cycSpan, closedCycle] using h1.trans h2
    · -- transition running → idle: close the cycle, open a downtime
      have hc_cy : (cycStep cs r).cycles
          = cs.cycles ++ [closedCycle s r.ts cs.cycle_prog] := by
        simp [cycStep, hrun0, hprev1, hcst]
      have hc_cs : (cycStep cs r).cycle_start = none := by
        simp [cycStep, hrun0, hprev1, hcst]
      have hd_dt : (downStep ds r).downtimes = ds.downtimes := by
        simp [downStep, hrun0, hdprev]
      have hd_ds : (downStep ds r).dt_start = some r.ts := by
        simp [downStep, hrun0, hdprev]
      refine ⟨(by rw [hd_pr, hc_pr]), ?_, (by rw [hd_dt]; exact hdc),
        r.ts, L ++ [(s, r.ts)], le_trans hfs hsr, le_refl _,
        Or.inr ⟨(by rw [hc_pr, hrun0]), hd_ds, hc_cs⟩,
        ?_, tilesFrom_append htil hsr⟩
      · rw [hc_cy]
        intro c hcm
        rcases List.mem_append.mp hcm with h1 | h1
        · exact hcc c h1
        · rw [List.mem_singleton.mp h1]
          exact ⟨rfl, rfl⟩
      · rw [hc_cy, hd_dt, List.map_append]
        have h1 := perm_append_swap_right (cs.cycles.map cycSpan)
          (ds.downtimes.map downSpan) ((s, r.ts) : Int × Int)
        have h2 := hperm.append_right [((s, r.ts) : Int × Int)]
        simpa [cycSpan, closedCycle] using h1.trans h2
  · -- the machine was idle
    have hdprev : ds.prev_run = some "0" := by rw [hpr, hprev0]
    rcases hw with hrun1 | hrun0
    · -- transition idle → running: close the downtime, open a cycle
      have hc_cy : (cycStep cs r).cycles = cs.cycles := by
        simp [cycStep, hrun1, hprev0]
      have hc_cs : (cycStep cs r).cycle_start = some r.ts := by
        simp [cycStep, hrun1, hprev0]
      by_cases hdur : (0 : ℚ) < round2 (((r.ts : ℚ) - (s : ℚ)) / 60)
      · -- the downtime has positive rounded duration and is emitted
        have hd_dt : (downStep ds r).downtimes = ds.downtimes
            ++ [{ start := some s, stop := some r.ts,
                  duration := round2 (((r.ts : ℚ) - (s : ℚ)) / 60),
                  reason := ds.dt_reason }] := by
          simp [downStep, hrun1, hdprev, hdst, hdur]
        have hd_ds : (downStep ds r).dt_start = none := by
          simp [downStep, hrun1, hdprev, hdst, hdur]
        refine ⟨(by rw [hd_pr, hc_pr]), (by rw [hc_cy]; exact hcc), ?_,
          r.ts, L ++ [(s, r.ts)], le_trans hfs hsr, le_refl _,
          Or.inl ⟨(by rw [hc_pr, hrun1]), hc_cs, hd_ds⟩,
          ?_, tilesFrom_append htil hsr⟩
        · rw [hd_dt]
          intro d hdm
          rcases List.mem_append.mp hdm with h1 | h1
          · exact hdc d h1
          · rw [List.mem_singleton.mp h1]
            exact ⟨rfl, rfl⟩
        · rw [hc_cy, hd_dt, List.map_append, ← List.append_assoc]
          have h2 := hperm.append_right [((s, r.ts) : Int × Int)]
          simpa [downSpan] using h2
      · -- zero-length downtime: dropped, and then s = r.ts
        have hseq : s = r.ts := by
          have hnp : ¬ (0 < r.ts - s) := by
            intro hpos
            have hpr2 := round2_sixtieth_pos (r.ts - s) hpos
            push_cast at hpr2
            exact hdur hpr2
          omega
        have hd_dt : (downStep ds r).downtimes = ds.downtimes := by
          simp [downStep, hrun1, hdprev, hdst, hdur]
        have hd_ds : (downStep ds r).dt_start = none := by
          simp [downStep, hrun1, hdprev, hdst, hdur]
        refine ⟨(by rw [hd_pr, hc_pr]), (by rw [hc_cy]; exact hcc), (by rw [hd_dt]; exact hdc),
          r.ts, L, (by rw [← hseq]; exact hfs), le_refl _,
          Or.inl ⟨(by rw [hc_pr, hrun1]), hc_cs, hd_ds⟩,
          ?_, (by rw [← hseq]; exact htil)⟩
        rw [hc_cy, hd_dt]
        exact hperm
    · -- still idle: the open downtime continues
      have hc_cy : (cycStep cs r).cycles = cs.cycles := by
        simp [cycStep, hrun0, hprev0]
      have hc_cs : (cycStep cs r).cycle_start = cs.cycle_start := by
        simp [cycStep, hrun0, hprev0]
      have hd_dt : (downStep ds r).downtimes = ds.downtimes := by
        simp [downStep, hrun0, hdprev]
      have hd_ds : (downStep ds r).dt_start = ds.dt_start := by
        simp [downStep, hrun0, hdprev]
      refine ⟨(by rw [hd_pr, hc_pr]), (by rw [hc_cy]; exact hcc), (by rw [hd_dt]; exact hdc),
        s, L, hfs, hsr,
        Or.inr ⟨(by rw [hc_pr, hrun0]), (by rw [hd_ds]; exact hdst),
          (by rw [hc_cs]; exact hcst)⟩,
        ?_, htil⟩
      rw [hc_cy, hd_dt]
      exact hperm

/-- Folding both loops over a sorted suffix of well-formed samples preserves
the joint invariant, with the current timestamp advancing to the suffix's last
timestamp. -/
theorem inv_fold (rows : List Row) :
    ∀ (first cur : Int) (cs : CycState) (ds : DownState),
      Inv first cur cs ds →
      (∀ r ∈ rows, WFRow r) →
      List.Chain (fun a b => a ≤ b) cur (rows.map (fun r => r.ts)) →
      Inv first ((rows.map (fun r => r.ts)).getLastD cur)
        (rows.foldl cycStep cs) (rows.foldl downStep ds) := by
  induction rows with
  | nil => intro first cur cs ds hinv _ _; exact hinv
  | cons r rest ih =>
    intro first cur cs ds hinv hwf hchain
    rw [List.map_cons, List.chain_cons] at hchain
    rw [List.map_cons, List.getLastD_cons, List.foldl_cons, List.foldl_cons]
    exact ih first r.ts (cycStep cs r) (downStep ds r)
      (inv_step first cur cs ds r (hwf r (List.mem_cons_self r rest)) hchain.1 hinv)
      (fun x hx => hwf x (List.mem_cons_of_mem r hx)) hchain.2

/-- `map` only depends on the function's values on the list. -/
theorem map_congr_mem {α β : Type} (f g : α → β) :
    ∀ l : List α, (∀ a ∈ l, f a = g a) → l.map f = l.map g := by
  intro l
  induction l with
  | nil => intro _; rfl
  | cons x xs ih =>
    intro h
    rw [List.map_cons, List.map_cons, h x (List.mem_cons_self x xs),
      ih (fun a ha => h a (List.mem_cons_of_mem x ha))]

/-- On an event with both endpoints present, `eventSpan` does not depend on
the default timestamp. -/
theorem eventSpan_closed (lastTs : Int) {s e : Option Int}
    (hs : s.isSome) (he : e.isSome) : eventSpan lastTs s e = (s.getD 0, e.getD 0) := by
  obtain ⟨a, ha⟩ := Option.isSome_iff_exists.mp hs
  obtain ⟨b, hb⟩ := Option.isSome_iff_exists.mp he
  rw [ha, hb]
  rfl

/-- C2 (amended): for a nonempty, chronologically ordered, well-formed sample
series of one machine, the cycle and downtime intervals emitted by
segmentation all lie within `[first, last]`, are pairwise disjoint except for
shared endpoints, and — provided the series spans a nonzero duration
(`first < last`) — their union covers every instant of `[first, last]` with no
gap.  (In the degenerate single-instant all-idle series nothing is emitted;
see the counterexample.) -/
theorem C2_cycles_downtimes_partition (rows : List Row) (r0 : Row) (rest : List Row)
    (hrows : rows = r0 :: rest)
    (hwf : ∀ r ∈ rows, WFRow r)
    (hsorted : List.Chain' (fun a b => a.ts ≤ b.ts) rows) :
    (∀ p ∈ machine_intervals rows,
        r0.ts ≤ p.1 ∧ p.1 ≤ p.2 ∧ p.2 ≤ (rows.getLastD r0).ts)
    ∧ (machine_intervals rows).Pairwise (fun p q => p.2 ≤ q.1 ∨ q.2 ≤ p.1)
    ∧ (r0.ts < (rows.getLastD r0).ts →
        ∀ t : Int, r0.ts ≤ t → t ≤ (rows.getLastD r0).ts →
          ∃ p ∈ machine_intervals rows, p.1 ≤ t ∧ t ≤ p.2) := by
  subst hrows
  have hchain : List.Chain (fun a b => a ≤ b) r0.ts (rest.map (fun r => r.ts)) :=
    (List.chain_map (fun r : Row => r.ts)).mpr hsorted
  have hinv := inv_fold rest r0.ts r0.ts
    (cycStep ⟨[], none, none, none, ""⟩ r0) (downStep ⟨[], none, none, ""⟩ r0)
    (inv_init r0 (hwf r0 (List.mem_cons_self r0 rest)))
    (fun r hr => hwf r (List.mem_cons_of_mem r0 hr)) hchain
  have hlast : (rest.map (fun r => r.ts)).getLastD r0.ts = ((r0 :: rest).getLastD r0).ts := by
    rw [List.getLastD_cons]
    exact getLastD_map (fun r => r.ts) rest r0
  rw [hlast] at hinv
  obtain ⟨hpr, hcc, hdc, s, L, hfs, hsc, hstate, hperm, htil⟩ := hinv
  have hmapc : (rest.foldl cycStep (cycStep ⟨[], none, none, none, ""⟩ r0)).cycles.map
        (fun c => eventSpan ((r0 :: rest).getLastD r0).ts c.start c.stop)
      = (rest.foldl cycStep (cycStep ⟨[], none, none, none, ""⟩ r0)).cycles.map cycSpan :=
    map_congr_mem _ _ _ (fun c hc => eventSpan_closed _ (hcc c hc).1 (hcc c hc).2)
  have hmapd : (rest.foldl downStep (downStep ⟨[], none, none, ""⟩ r0)).downtimes.map
        (fun d => eventSpan ((r0 :: rest).getLastD r0).ts d.start d.stop)
      = (rest.foldl downStep (downStep ⟨[], none, none, ""⟩ r0)).downtimes.map downSpan :=
    map_congr_mem _ _ _ (fun d hd => eventSpan_closed _ (hdc d hd).1 (hdc d hd).2)
  have key : ∃ Lfin, (machine_intervals (r0 :: rest)).Perm Lfin
      ∧ TilesFrom r0.ts Lfin ((r0 :: rest).getLastD r0).ts := by
    rcases hstate with ⟨hprev1, hcst, hdst⟩ | ⟨hprev0, hdst, hcst⟩
    · -- an open cycle is pending: it is emitted as ongoing
      have hac : analyze_cycles (r0 :: rest)
          = (rest.foldl cycStep (cycStep ⟨[], none, none, none, ""⟩ r0)).cycles
            ++ [{ start := some s, stop := none,
                  program := (rest.foldl cycStep (cycStep ⟨[], none, none, none, ""⟩ r0)).cycle_prog,
                  duration := round2 (((((r0 :: rest).getLastD r0).ts - s : Int) : ℚ) / 60),
                  ongoing := true }] := by
        simp only [analyze_cycles, List.foldl_cons]
        rw [hcst]
      have had : (analyze_downtime (r0 :: rest)).downtimes
          = (rest.foldl downStep (downStep ⟨[], none, none, ""⟩ r0)).downtimes := by
        simp only [analyze_downtime, List.foldl_cons]
        rw [hdst]
      refine ⟨L ++ [(s, ((r0 :: rest).getLastD r0).ts)], ?_, tilesFrom_append htil hsc⟩
      simp only [machine_intervals, hac, had, List.map_append]
      rw [hmapd]
      have hone : List.map (fun c => eventSpan ((r0 :: rest).getLastD r0).ts c.start c.stop)
          [({ start := some s, stop := none,
              program := (rest.foldl cycStep (cycStep ⟨[], none, none, none, ""⟩ r0)).cycle_prog,
              duration := round2 (((((r0 :: rest).getLastD r0).ts - s : Int) : ℚ) / 60),
              ongoing := true } : Cycle)]
          = [(s, ((r0 :: rest).getLastD r0).ts)] := rfl
      rw [hone, hmapc]
      exact (perm_append_swap_right _ _ _).trans
        (hperm.append_right [(s, ((r0 :: rest).getLastD r0).ts)])
    · -- an open downtime is pending
      have hac : analyze_cycles (r0 :: rest)
          = (rest.foldl cycStep (cycStep ⟨[], none, none, none, ""⟩ r0)).cycles := by
        simp only [analyze_cycles, List.foldl_cons]
        rw [hcst]
      by_cases hdur : round2 (((((r0 :: rest).getLastD r0).ts - s : Int) : ℚ) / 60) > 0
      · -- positive rounded duration: the ongoing downtime is emitted
        have had : (analyze_downtime (r0 :: rest)).downtimes
            = (rest.foldl downStep (downStep ⟨[], none, none, ""⟩ r0)).downtimes
              ++ [{ start := some s, stop := none,
                    duration := round2 (((((r0 :: rest).getLastD r0).ts - s : Int) : ℚ) / 60),
                    reason := (rest.foldl downStep (downStep ⟨[], none, none, ""⟩ r0)).dt_reason,
                    ongoing := true }] := by
          simp only [analyze_downtime, List.foldl_cons, hdst]
          rw [if_pos hdur]
        refine ⟨L ++ [(s, ((r0 :: rest).getLastD r0).ts)], ?_, tilesFrom_append htil hsc⟩
        simp only [machine_intervals, hac, had, List.map_append]
        rw [hmapc, hmapd]
        have hone : List.map (fun d => eventSpan ((r0 :: rest).getLastD r0).ts d.start d.stop)
            [({ start := some s, stop := none,
                duration := round2 (((((r0 :: rest).getLastD r0).ts - s : Int) : ℚ) / 60),
                reason := (rest.foldl downStep (downStep ⟨[], none, none, ""⟩ r0)).dt_reason,
                ongoing := true } : Downtime)]
            = [(s, ((r0 :: rest).getLastD r0).ts)] := rfl
        rw [hone, ← List.append_assoc]
        exact hperm.append_right [(s, ((r0 :: rest).getLastD r0).ts)]
      · -- zero-length pending downtime: dropped, and s = last
        have hseq : s = ((r0 :: rest).getLastD r0).ts := by
          have hnp : ¬ (0 < ((r0 :: rest).getLastD r0).ts - s) := by
            intro hpos
            exact hdur (round2_sixtieth_pos (((r0 :: rest).getLastD r0).ts - s) hpos)
          omega
        have had : (analyze_downtime (r0 :: rest)).downtimes
            = (rest.foldl downStep (downStep ⟨[], none, none, ""⟩ r0)).downtimes := by
          simp only [analyze_downtime, List.foldl_cons, hdst]
          rw [if_neg hdur]
        refine ⟨L, ?_, by rw [← hseq]; exact htil⟩
        simp only [machine_intervals, hac, had]
        rw [hmapc, hmapd]
        exact hperm
  obtain ⟨Lfin, hperm2, htil2⟩ := key
  refine ⟨?_, ?_, ?_⟩
  · intro p hp
    exact tilesFrom_bounds htil2 p (hperm2.mem_iff.mp hp)
  · have hpw2 : Lfin.Pairwise (fun p q : Int × Int => p.2 ≤ q.1 ∨ q.2 ≤ p.1) :=
      (tilesFrom_pairwise htil2).imp (fun h => Or.inl h)
    have hsymm : Symmetric (fun p q : Int × Int => p.2 ≤ q.1 ∨ q.2 ≤ p.1) := by
      intro p q h
      exact h.elim Or.inr Or.inl
    exact (hperm2.pairwise_iff (fun h => hsymm h)).mpr hpw2
  · intro hlt t h1 h2
    obtain ⟨p, hp, hp1, hp2⟩ := tilesFrom_cover htil2 t h1 h2 hlt
    exact ⟨p, hperm2.mem_iff.mpr hp, hp1, hp2⟩

/-- C2 counterexample: for the one-sample all-idle series, segmentation emits
nothing at all — so the union of the emitted intervals does not cover the
(single-point) span `[first, last] = {0}`, and the exact-cover claim fails as
universally stated. -/
theorem C2_partition_counterexample :
    machine_intervals [{ ts := 0, run := some "0", prog := "" }] = []
    ∧ ¬ ∃ p ∈ machine_intervals [{ ts := 0, run := some "0", prog := "" }],
        p.1 ≤ 0 ∧ (0 : Int) ≤ p.2 := by
  refine ⟨by decide, by decide⟩

/-- C2 witness: `C2_cycles_downtimes_partition` on a concrete run-idle-run
series; the instant `t = 30` inside the span is covered by an emitted
interval. -/
theorem C2_partition_witness :
    ∃ p ∈ machine_intervals
        [{ ts := 0, run := some "1", prog := "P.MIN" },
         { ts := 60, run := some "0", prog := "P.MIN" },
         { ts := 120, run := some "1", prog := "P.MIN" }],
      p.1 ≤ 30 ∧ (30 : Int) ≤ p.2 :=
  (C2_cycles_downtimes_partition _ _ _ rfl (by decide)
    (List.Chain.cons (by decide) (List.Chain.cons (by decide) List.Chain.nil))).2.2
    (by decide) 30 (by decide) (by decide)

end FM
